import Mathlib

/-!
Verification of the luminal tensor-compiler core: the symbolic shape/layout
tracker (`src/core/shape/simple_tracker.rs`) and the CPU graph optimizers
(`src/optimizers/cpu.rs`), shallowly embedded in Lean.

Rust `usize` values are modelled as `Nat`; `saturating_sub` is exactly
truncated `Nat` subtraction.  The `i32::MAX` slice sentinel is the literal
`2147483647`.  The fixed capacity (10) of the per-axis `ArrayVec`s is not
modelled; no claim exercises capacity overflow.
-/

namespace Luminal

/-- The `i32::MAX` sentinel used for an unset slice upper bound. -/
def i32Max : Nat := 2147483647

/-- `Dim`: a single axis length, either known or a named symbolic unknown
(`Dim::Known(usize) | Dim::Unknown(char)`). -/
inductive Dim
  | Known (n : Nat)
  | Unknown (c : Char)
  deriving DecidableEq, Repr, Inhabited

/-- `Dim::default()` is `Unknown('-')`, the distinguished unresolved symbol. -/
def Dim.default : Dim := Dim.Unknown '-'

/-- `Dim::to_usize`: `Known n ↦ Some n`, `Unknown _ ↦ None`. -/
def Dim.to_usize : Dim → Option Nat
  | Dim.Known n => some n
  | Dim.Unknown _ => none

/-- `Dim` value for stride computation; `Unknown` would panic in the source
(`expect("All dims must be known before indexing!")`), theorems below only
use this under an all-known hypothesis. -/
def Dim.val : Dim → Nat
  | Dim.Known n => n
  | Dim.Unknown _ => 0

/-- `ShapeTracker`: five parallel per-axis vectors
(`dims`, `indexes`, `fake`, `slices`, `padding`). -/
structure ShapeTracker where
  dims : List Dim
  indexes : List Nat
  fake : List Bool
  slices : List (Nat × Nat)
  padding : List (Nat × Nat)
  deriving DecidableEq, Repr, Inhabited

namespace ShapeTracker

/-- `ShapeTracker::new(dims)`: identity-ordered tracker, every axis
unsliced (`(0, i32::MAX)`) and unpadded (`(0, 0)`). -/
def new (ds : List Dim) : ShapeTracker where
  dims := ds
  indexes := List.range ds.length
  fake := ds.map fun _ => false
  slices := ds.map fun _ => (0, i32Max)
  padding := ds.map fun _ => (0, 0)

/-- `ShapeTracker::fake(dims)`: like `new` but every axis marked fake. -/
def mkFake (ds : List Dim) : ShapeTracker :=
  { new ds with fake := ds.map fun _ => true }

/-- `ShapeTracker::expand(axis, dim)`: insert the new storage slot's index
at logical position `axis`, append the dim to storage marked fake.
The source pushes to `dims`, `fake`, `slices`, `padding`. -/
def expand (t : ShapeTracker) (axis : Nat) (d : Dim) : ShapeTracker where
  dims := t.dims ++ [d]
  indexes := t.indexes.take axis ++ [t.dims.length] ++ t.indexes.drop axis
  fake := t.fake ++ [true]
  slices := t.slices ++ [(0, i32Max)]
  padding := t.padding ++ [(0, 0)]

/-- `ShapeTracker::remove_dim(axis)`: remove the logical axis, removing
the storage slot from `dims` and `fake` (the source does not touch
`slices` or `padding`), and re-index higher storage references by −1. -/
def remove_dim (t : ShapeTracker) (axis : Nat) : ShapeTracker :=
  let index := t.indexes.getD axis 0
  { t with
    dims := t.dims.eraseIdx index
    indexes := (t.indexes.eraseIdx axis).map fun i => if i > index then i - 1 else i
    fake := t.fake.eraseIdx index }

/-- `ShapeTracker::permute(axes)`: `indexes[i] := old indexes[axes[i]]`. -/
def permute (t : ShapeTracker) (axes : List Nat) : ShapeTracker :=
  { t with indexes := axes.map fun i => t.indexes.getD i 0 }

/-- Right-to-left scan of `unordered_strides` / the stride part of
`index_expression`: processes `(dim, fake)` pairs from the right, returning
the per-slot strides and the final accumulator.  A fake slot contributes no
multiplier but still emits the running accumulator. -/
def stridesAux (mul : α → α → α) (one : α) (dimv : Dim → α) :
    List (Dim × Bool) → List α × α
  | [] => ([], one)
  | (d, f) :: rest =>
    let (s, acc) := stridesAux mul one dimv rest
    (acc :: s, if f then acc else mul acc (dimv d))

/-- `ShapeTracker::unordered_strides`. -/
def unordered_strides (t : ShapeTracker) : List Nat :=
  (stridesAux (· * ·) 1 Dim.val (t.dims.zip t.fake)).1

/-- `ShapeTracker::strides`: unordered strides reordered by `indexes`. -/
def strides (t : ShapeTracker) : List Nat :=
  t.indexes.map fun i => t.unordered_strides.getD i 0

/-- `ShapeTracker::n_elements`: product over logical axes (all of
`indexes`) of `min(dim + pad.0 + pad.1, slice.1) - slice.0`, with
`Unknown` dims filtered out of the product by `filter_map`. -/
def n_elements (t : ShapeTracker) : Nat :=
  (((t.indexes.filterMap fun i =>
      match t.dims.getD i Dim.default with
      | Dim.Known n => some (i, n)
      | Dim.Unknown _ => none).map
    fun p => (p.1, p.2 + (t.padding.getD p.1 (0, 0)).1 + (t.padding.getD p.1 (0, 0)).2)).map
    fun p => min p.2 (t.slices.getD p.1 (0, 0)).2 - (t.slices.getD p.1 (0, 0)).1).prod

/-- `ShapeTracker::n_physical_elements`: product over non-fake storage
slots, `Unknown` dims skipped by `flat_map(to_usize)`. -/
def n_physical_elements (t : ShapeTracker) : Nat :=
  (((t.dims.zip t.fake).filter fun p => !p.2).filterMap fun p => p.1.to_usize).prod

/-- `ShapeTracker::slice(slices)`: per logical axis, slicing consumes
front padding first (`padding.0 -= s` saturating, `s -= old padding.0`
saturating), then `slices.0 += s` and `slices.1 := min(slices.1, e)`. -/
def slice (t : ShapeTracker) (sl : List (Nat × Nat)) : ShapeTracker :=
  sl.enum.foldl (fun acc (p : Nat × Nat × Nat) =>
    let i := p.1
    let s := p.2.1
    let e := p.2.2
    let idx := acc.indexes.getD i 0
    let pad := acc.padding.getD idx (0, 0)
    let acc := if pad.1 ≠ 0 then
        { acc with padding := acc.padding.set idx (pad.1 - s, pad.2) } else acc
    let s := if pad.1 ≠ 0 then s - pad.1 else s
    let old := acc.slices.getD idx (0, 0)
    { acc with slices := acc.slices.set idx (old.1 + s, min old.2 e) }) t

/-- One axis of `ShapeTracker::pad`: `padding.0 += s`; then
`panic!("Adding padding to a slice isn't supported")` when `e ≠ 0` and the
slice upper bound is not the `i32::MAX` sentinel (modelled as `none`);
otherwise `padding.1 += e`.  Reachable trackers always keep
`slices.1 ≤ i32::MAX`, so the source's `as i32` cast is the identity. -/
def padStep (acc : ShapeTracker) (p : Nat × Nat × Nat) : Option ShapeTracker :=
  let i := p.1
  let s := p.2.1
  let e := p.2.2
  let idx := acc.indexes.getD i 0
  let old := acc.padding.getD idx (0, 0)
  let acc := { acc with padding := acc.padding.set idx (old.1 + s, old.2) }
  if e ≠ 0 ∧ (acc.slices.getD idx (0, 0)).2 ≠ i32Max then none
  else
    let old := acc.padding.getD idx (0, 0)
    some { acc with padding := acc.padding.set idx (old.1, old.2 + e) }

/-- `ShapeTracker::pad(padding)`. -/
def pad (t : ShapeTracker) (pd : List (Nat × Nat)) : Option ShapeTracker :=
  pd.enum.foldlM padStep t

end ShapeTracker

/-- One `Indexer` axis tuple: `(size, stride, padding, slice, fake)`. -/
structure Axis where
  sh : Nat
  stride : Nat
  pad : Nat × Nat
  sl : Nat × Nat
  fake : Bool
  deriving DecidableEq, Repr

/-- The effective padded-and-sliced axis size
`(sh + pad.0 + pad.1).min(slice.1) - slice.0`. -/
def Axis.logicalSh (a : Axis) : Nat :=
  min (a.sh + a.pad.1 + a.pad.2) a.sl.2 - a.sl.1

/-- `Indexer`: per-axis tuples in reverse logical order. -/
structure Indexer where
  data : List Axis
  deriving DecidableEq, Repr

/-- The indexer tuple of storage slot `i`:
`(dim, stride, padding, slice, fake)`. -/
def ShapeTracker.axisAt (t : ShapeTracker) (i : Nat) : Axis where
  sh := (t.dims.getD i Dim.default).val
  stride := t.unordered_strides.getD i 0
  pad := t.padding.getD i (0, 0)
  sl := t.slices.getD i (0, 0)
  fake := t.fake.getD i false

/-- `ShapeTracker::indexer()`: axes in reverse logical order with
unordered strides; `Unknown` dims would panic (`to_usize().unwrap()`). -/
def ShapeTracker.indexer (t : ShapeTracker) : Indexer where
  data := t.indexes.reverse.map t.axisAt

/-- The loop of `Indexer::index`: walk axes accumulating the running
divisor `acc` and physical offset `ret`; a digit outside
`[pad.0 - slice.0, min(sh + pad.0, slice.1))` returns `None`. -/
def indexLoop : List Axis → Nat → Nat → Nat → Option Nat
  | [], _, ret, _ => some ret
  | a :: rest, logical, ret, acc =>
    let lsh := a.logicalSh
    if a.fake then indexLoop rest logical ret (acc * lsh)
    else
      let dimInd := logical / acc % lsh
      if dimInd ≥ min (a.sh + a.pad.1) a.sl.2 ∨ dimInd < a.pad.1 - a.sl.1 then none
      else indexLoop rest logical (ret + (dimInd - a.pad.1 + (a.sl.1 - a.pad.1)) * a.stride)
        (acc * lsh)

/-- `Indexer::index(logical)`. -/
def Indexer.index (ix : Indexer) (logical : Nat) : Option Nat :=
  indexLoop ix.data logical 0 1

/-- Exact-integer reference form of the `index_expression` loop: the
physical offset as the symbolic engine computes it. -/
def zIndexLoop : List Axis → Int → Int → Int → Int
  | [], _, ret, _ => ret
  | a :: rest, lg, ret, acc =>
    let lsh : Int := min ((a.sh : Int) + (a.pad.1 : Int) + (a.pad.2 : Int)) (a.sl.2 : Int) -
      (a.sl.1 : Int)
    let ret' := if a.fake then ret else
      ret + (((lg.ediv acc).emod lsh - (a.pad.1 : Int) + ((a.sl.1 - a.pad.1 : Nat) : Int)) *
        (a.stride : Int))
    zIndexLoop rest lg ret' (acc * lsh)

/-- Exact-integer reference form of the `valid_expression` checks: every
non-fake axis digit lies in
`[pad.0 - slice.0, min(sh + pad.0, slice.1))`. -/
def zValidHolds : List Axis → Int → Int → Prop
  | [], _, _ => True
  | a :: rest, lg, acc =>
    let lsh : Int := min ((a.sh : Int) + (a.pad.1 : Int) + (a.pad.2 : Int)) (a.sl.2 : Int) -
      (a.sl.1 : Int)
    ((a.fake = false) →
      ((a.pad.1 - a.sl.1 : Nat) : Int) ≤ (lg.ediv acc).emod lsh ∧
      (lg.ediv acc).emod lsh < min ((a.sh : Int) + (a.pad.1 : Int)) (a.sl.2 : Int)) ∧
    zValidHolds rest lg (acc * lsh)

/-- The symbolic expression type built by `index_expression` /
`valid_expression` (`savage_core::expression::Expression` restricted to the
constructors the source uses). -/
inductive Expr
  | int (n : Int)
  | var (s : String)
  | add (a b : Expr)
  | sub (a b : Expr)
  | mul (a b : Expr)
  | div (a b : Expr)
  | mod (a b : Expr)
  | emin (a b : Expr)
  | eand (a b : Expr)
  | ege (a b : Expr)
  | elt (a b : Expr)
  deriving DecidableEq, Repr

/-- Evaluation of an expression over exact integers (the `BigInt`
arithmetic of the symbolic engine), with Euclidean division — on the
non-negative operands produced here this is exactly Rust's `usize`
division — and comparisons/conjunction as 0/1 flags. -/
def Expr.eval (env : String → Int) : Expr → Int
  | int n => n
  | var s => env s
  | add a b => a.eval env + b.eval env
  | sub a b => a.eval env - b.eval env
  | mul a b => a.eval env * b.eval env
  | div a b => Int.ediv (a.eval env) (b.eval env)
  | mod a b => Int.emod (a.eval env) (b.eval env)
  | emin a b => min (a.eval env) (b.eval env)
  | eand a b => if a.eval env ≠ 0 ∧ b.eval env ≠ 0 then 1 else 0
  | ege a b => if a.eval env ≥ b.eval env then 1 else 0
  | elt a b => if a.eval env < b.eval env then 1 else 0

/-- A dim as an expression: `Known n ↦ Integer n`, `Unknown c ↦ Variable c`. -/
def Dim.expr : Dim → Expr
  | Dim.Known n => Expr.int n
  | Dim.Unknown c => Expr.var c.toString

namespace ShapeTracker

/-- Expression-level unordered strides (the scan at the top of
`index_expression`): the same right-to-left scan as `unordered_strides`
with `Expression` arithmetic. -/
def strideExprs (t : ShapeTracker) : List Expr :=
  (stridesAux Expr.mul (Expr.int 1) Dim.expr (t.dims.zip t.fake)).1

/-- The main loop of `index_expression`, over axes in reverse logical
order carrying `(ret, acc)` expressions. -/
def indexExprLoop : List (Expr × Expr × (Nat × Nat) × (Nat × Nat) × Bool) → Expr → Expr → Expr
  | [], ret, _ => ret
  | (sh, stride, pd, sl, fk) :: rest, ret, acc =>
    let lsh := Expr.sub (Expr.emin (Expr.add (Expr.add sh (Expr.int pd.1)) (Expr.int pd.2))
      (Expr.int sl.2)) (Expr.int sl.1)
    let ret := if fk then ret else
      Expr.add ret (Expr.mul
        (Expr.add (Expr.sub (Expr.mod (Expr.div (Expr.var "idx") acc) lsh) (Expr.int pd.1))
          (Expr.int ((sl.1 - pd.1 : Nat) : Int)))
        stride)
    indexExprLoop rest ret (Expr.mul acc lsh)

/-- The per-axis tuple the `index_expression` loop consumes:
`(dim expr, stride expr, padding, slice, fake)`. -/
def exprAxis (t : ShapeTracker) (i : Nat) : Expr × Expr × (Nat × Nat) × (Nat × Nat) × Bool :=
  ((t.dims.getD i Dim.default).expr, t.strideExprs.getD i (Expr.int 0),
    t.padding.getD i (0, 0), t.slices.getD i (0, 0), t.fake.getD i false)

/-- `ShapeTracker::index_expression()`. -/
def index_expression (t : ShapeTracker) : Expr :=
  indexExprLoop (t.indexes.reverse.map t.exprAxis) (Expr.int 0) (Expr.int 1)

/-- The main loop of `valid_expression`, conjoining the two per-axis range
checks for non-fake axes. -/
def validExprLoop : List (Expr × (Nat × Nat) × (Nat × Nat) × Bool) → Expr → Expr → Expr
  | [], ret, _ => ret
  | (sh, pd, sl, fk) :: rest, ret, acc =>
    let lsh := Expr.sub (Expr.emin (Expr.add (Expr.add sh (Expr.int pd.1)) (Expr.int pd.2))
      (Expr.int sl.2)) (Expr.int sl.1)
    let ret := if fk then ret else
      let dimInd := Expr.mod (Expr.div (Expr.var "idx") acc) lsh
      Expr.eand (Expr.eand ret (Expr.ege dimInd (Expr.int ((pd.1 - sl.1 : Nat) : Int))))
        (Expr.elt dimInd (Expr.emin (Expr.add sh (Expr.int pd.1)) (Expr.int sl.2)))
    validExprLoop rest ret (Expr.mul acc lsh)

/-- The per-axis tuple the `valid_expression` loop consumes:
`(dim expr, padding, slice, fake)`. -/
def validAxis (t : ShapeTracker) (i : Nat) : Expr × (Nat × Nat) × (Nat × Nat) × Bool :=
  ((t.dims.getD i Dim.default).expr,
    t.padding.getD i (0, 0), t.slices.getD i (0, 0), t.fake.getD i false)

/-- `ShapeTracker::valid_expression()`: evaluates to 0 iff the logical
index is invalid. -/
def valid_expression (t : ShapeTracker) : Expr :=
  validExprLoop (t.indexes.reverse.map t.validAxis) (Expr.int 1) (Expr.int 1)

end ShapeTracker

/-- The environment binding the logical-index variable. -/
def idxEnv (idx : Nat) : String → Int := fun s => if s = "idx" then idx else 0

/-- One axis of a `resolve_local_dyn_dims` pass: if the dim at the
logical position `i` of the pass's own tracker (storage slot
`idxs[i]` of `cur`) is still `Unknown('-')`, fill it from the other
tracker's dim at logical position `i` (`src[srcIdxs[i]]`); if it is still
`Unknown('-')` after that and `default_to_one` holds, set it to
`Known(1)`. -/
def resolveStep (idxs : List Nat) (src : List Dim) (srcIdxs : List Nat) (dto : Bool)
    (cur : List Dim) (i : Nat) : List Dim :=
  let ia := idxs.getD i 0
  if cur.getD ia Dim.default = Dim.Unknown '-' then
    let cur' := cur.set ia (src.getD (srcIdxs.getD i 0) Dim.default)
    if cur'.getD ia Dim.default = Dim.Unknown '-' ∧ dto then cur'.set ia (Dim.Known 1)
    else cur'
  else cur

/-- `resolve_local_dyn_dims(a, b, default_to_one)`: the B-to-A pass over
`a`'s dims, then the A-to-B pass over `b`'s dims reading the already
updated `a` dims. -/
def resolve_local_dyn_dims (a b : ShapeTracker) (defaultToOne : Bool) :
    ShapeTracker × ShapeTracker :=
  let aDims := (List.range a.dims.length).foldl
    (resolveStep a.indexes b.dims b.indexes defaultToOne) a.dims
  let bDims := (List.range a.dims.length).foldl
    (resolveStep b.indexes aDims a.indexes defaultToOne) b.dims
  ({ a with dims := aDims }, { b with dims := bDims })

/-- The per-axis effect of `resolveStep` on the slot it touches. -/
def resolvePhi (src : List Dim) (srcIdxs : List Nat) (dto : Bool) (i : Nat) (v : Dim) : Dim :=
  if v = Dim.Unknown '-' then
    let w := src.getD (srcIdxs.getD i 0) Dim.default
    if w = Dim.Unknown '-' ∧ dto then Dim.Known 1 else w
  else v

/-! ## Computation graph and the CPU optimizers (`src/optimizers/cpu.rs`)

Node ids are `Nat` (petgraph `NodeIndex`).  Edge weights — the
input-view/slot tag, which both optimizers copy verbatim and never
inspect — are carried as an opaque `Nat` tag.  The scalar functions stored
by `FusedUnary` (`fn(f32) -> f32` pointers produced by `is_unary`) are
represented by their operator tags, interpreted abstractly where needed. -/

/-- The unary scalar functions recognized by `UnaryFusionOptimizer`. -/
inductive UnaryKind
  | exp2 | log2 | recip | sqrt | sin
  deriving DecidableEq, Repr

/-- Graph node operators: the ops the optimizers match on, the fused
replacements, and `Other` for any further operator (matched only by name). -/
inductive Op
  | Permute | Expand | Mul | SumReduce
  | Exp2 | Log2 | Recip | Sqrt | Sin
  | FusedUnary (fs : List UnaryKind)
  | MatMul2D
  | Other (s : String)
  deriving DecidableEq, Repr

/-- `Operator::name()` for each node payload. -/
def Op.opName : Op → String
  | Op.Permute => "Permute"
  | Op.Expand => "Expand"
  | Op.Mul => "Mul"
  | Op.SumReduce => "SumReduce"
  | Op.Exp2 => "Exp2"
  | Op.Log2 => "Log2"
  | Op.Recip => "Recip"
  | Op.Sqrt => "Sqrt"
  | Op.Sin => "Sin"
  | Op.FusedUnary _ => "FusedUnary"
  | Op.MatMul2D => "MatMul2D"
  | Op.Other s => s

/-- `is_unary`: the type-directed match recognizing the five unary ops. -/
def isUnary : Op → Option UnaryKind
  | Op.Exp2 => some UnaryKind.exp2
  | Op.Log2 => some UnaryKind.log2
  | Op.Recip => some UnaryKind.recip
  | Op.Sqrt => some UnaryKind.sqrt
  | Op.Sin => some UnaryKind.sin
  | _ => none

/-- The `downcast_ref::<FusedUnary>` match. -/
def asFused : Op → Option (List UnaryKind)
  | Op.FusedUnary fs => some fs
  | _ => none

/-- A graph node: id, operator payload, declared output shape. -/
structure GNode where
  id : Nat
  op : Op
  shape : List Nat
  deriving DecidableEq, Repr

/-- A graph edge with its (opaque) weight tag. -/
structure GEdge where
  src : Nat
  dst : Nat
  w : Nat
  deriving DecidableEq, Repr

/-- The computation graph with its reference side tables
(`no_delete`, `to_retrieve`, `id_remap`) and the next fresh node id. -/
structure Graph where
  nodes : List GNode
  edges : List GEdge
  noDelete : List Nat
  toRetrieve : List Nat
  idRemap : List (Nat × Nat)
  nextId : Nat
  deriving DecidableEq, Repr

namespace Graph

/-- `graph.node_weight(n)` / `get_op(n)`: the payload of a live node. -/
def lookupNode (g : Graph) (n : Nat) : Option (Op × List Nat) :=
  (g.nodes.find? fun nd => nd.id = n).map fun nd => (nd.op, nd.shape)

/-- Outgoing edges of a node (empty for a removed node). -/
def outEdges (g : Graph) (n : Nat) : List GEdge :=
  g.edges.filter fun e => e.src = n

/-- Modelled from the spec: `Graph::get_dests` (defined outside the two
given source files) — the targets of a node's outgoing edges paired with
their node payloads. -/
def getDests (g : Graph) (n : Nat) : List (Nat × Op × List Nat) :=
  (g.outEdges n).filterMap fun e => (g.lookupNode e.dst).map fun p => (e.dst, p)

/-- Modelled from the spec: `Graph::get_sources` — the sources of a node's
incoming edges paired with their node payloads. -/
def getSources (g : Graph) (n : Nat) : List (Nat × Op × List Nat) :=
  (g.edges.filter fun e => e.dst = n).filterMap fun e =>
    (g.lookupNode e.src).map fun p => (e.src, p)

/-- Modelled from the spec: `Graph::move_references(id_remap, no_delete,
to_retrieve, src, trg)` — rewrite remap entries pointing at `src` to `trg`,
record the `src → trg` remap, and move `no_delete`/`to_retrieve`
membership from `src` to `trg`. -/
def moveReferences (g : Graph) (src trg : Nat) : Graph :=
  { g with
    idRemap := (g.idRemap.map fun p => (p.1, if p.2 = src then trg else p.2)) ++ [(src, trg)]
    noDelete := g.noDelete.map fun x => if x = src then trg else x
    toRetrieve := g.toRetrieve.map fun x => if x = src then trg else x }

/-- petgraph `remove_node`: drops the node and all its incident edges. -/
def removeNode (g : Graph) (n : Nat) : Graph :=
  { g with
    nodes := g.nodes.filter fun nd => nd.id ≠ n
    edges := g.edges.filter fun e => e.src ≠ n ∧ e.dst ≠ n }

/-- `graph.graph.add_edge(a, b, w)`. -/
def addEdge (g : Graph) (a b : Nat) (w : Nat) : Graph :=
  { g with edges := g.edges ++ [⟨a, b, w⟩] }

/-- Modelled from the spec: `add_op(op, shape).input(i0).input(i1)
.finish()` (defined outside the given source files) — create a node under
a fresh id with edges from the two inputs, tagged with their slot. -/
def addOp2 (g : Graph) (op : Op) (shape : List Nat) (i0 i1 : Nat) : Graph × Nat :=
  (⟨g.nodes ++ [⟨g.nextId, op, shape⟩],
    g.edges ++ [⟨i0, g.nextId, 0⟩, ⟨i1, g.nextId, 1⟩],
    g.noDelete, g.toRetrieve, g.idRemap, g.nextId + 1⟩, g.nextId)

/-- `graph.graph.node_weight_mut(id).unwrap().0 = Box::new(op)`. -/
def setOp (g : Graph) (n : Nat) (op : Op) : Graph :=
  { g with nodes := g.nodes.map fun nd => if nd.id = n then { nd with op := op } else nd }

/-- One iteration of the `MatMulOptimizer::optimize` scan at `node`:
match `Permute(rank 2) → Expand(rank 3) → Mul(rank 3) ← Expand(rank 3)`,
`Mul → SumReduce(rank 2)`, refuse when Permute/Expand/Expand/Mul is in
`no_delete`, then splice in a `MatMul2D` node.  `none` models a panic
(an `unwrap` failing). -/
def matmulStep (g : Graph) (node : Nat) : Option Graph :=
  match g.lookupNode node with
  | none => some g
  | some (permuteOp, permuteShape) =>
    if ¬(permuteOp.opName = "Permute" ∧ permuteShape.length = 2) then some g else
    match g.getDests node with
    | [(expand1, op1, sh1)] =>
      if ¬(op1.opName = "Expand" ∧ sh1.length = 3) then some g else
      match g.getDests expand1 with
      | [(mul, opm, shm)] =>
        if ¬(opm.opName = "Mul" ∧ shm.length = 3) then some g else
        match (g.getSources mul).filter fun s => s.1 ≠ expand1 with
        | [(expand2, op2, sh2)] =>
          if ¬(op2.opName = "Expand" ∧ sh2.length = 3) then some g else
          match g.getDests mul with
          | [(sumReduce, opr, shr)] =>
            if ¬(opr.opName = "SumReduce" ∧ shr.length = 2) then some g else
            if node ∈ g.noDelete ∨ expand1 ∈ g.noDelete ∨ expand2 ∈ g.noDelete ∨
                mul ∈ g.noDelete then some g else
            match (g.getSources expand2).getLast?, (g.getSources node).getLast? with
            | some (input0, _, input0Shape), some (input1, _, input1Shape) =>
              let (g1, newOp) := g.addOp2 Op.MatMul2D
                [input0Shape.getD 0 0, input1Shape.getD 1 0] input0 input1
              let g2 := (g1.outEdges sumReduce).foldl
                (fun h e => h.addEdge newOp e.dst e.w) g1
              let g3 := g2.moveReferences sumReduce newOp
              some ((((g3.removeNode expand1).removeNode expand2).removeNode
                node).removeNode mul |>.removeNode sumReduce)
            | _, _ => none
          | _ => some g
        | _ => some g
      | _ => some g
    | _ => some g

/-- The snapshot fold both optimizers use
(`for node in graph.node_indices().collect_vec()`). -/
def optFold (step : Graph → Nat → Option Graph) : Graph → List Nat → Option Graph
  | g, [] => some g
  | g, x :: xs =>
    match step g x with
    | none => none
    | some g' => optFold step g' xs

/-- `MatMulOptimizer::optimize`. -/
def matmulOptimize (g : Graph) : Option Graph :=
  optFold matmulStep g (g.nodes.map fun nd => nd.id)

/-- The merged function list of `UnaryFusionOptimizer`'s four cases
(unary+unary, unary+fused, fused+unary, fused+fused); `none` when no
merge applies. -/
def mergedFns (op other : Op) : Option (List UnaryKind) :=
  match isUnary op with
  | some f =>
    match isUnary other with
    | some of => some [f, of]
    | none => (asFused other).map fun fs => f :: fs
  | none =>
    match asFused op with
    | some fs =>
      match isUnary other with
      | some of => some (fs ++ [of])
      | none => (asFused other).map fun fs2 => fs ++ fs2
    | none => none

/-- One iteration of the `UnaryFusionOptimizer::optimize` scan at `id`:
skip nodes in `no_delete`, require exactly one outgoing edge, merge the
function lists onto the source node, rewire the successor's outgoing
edges, migrate references, delete the successor. -/
def unaryStep (g : Graph) (id : Nat) : Option Graph :=
  if id ∈ g.noDelete then some g else
  match (g.outEdges id).map fun e => e.dst with
  | [target] =>
    match g.lookupNode id, g.lookupNode target with
    | some (op, _), some (otherOp, _) =>
      match mergedFns op otherOp with
      | none => some g
      | some fs =>
        let g1 := g.setOp id (Op.FusedUnary fs)
        let g2 := (g1.outEdges target).foldl (fun h e => h.addEdge id e.dst e.w) g1
        let g3 := g2.moveReferences target id
        some (g3.removeNode target)
    | _, _ => none
  | _ => some g

/-- `UnaryFusionOptimizer::optimize`. -/
def unaryOptimize (g : Graph) : Option Graph :=
  optFold unaryStep g (g.nodes.map fun nd => nd.id)

/-- The ids of the live nodes. -/
def idsOf (g : Graph) : List Nat :=
  g.nodes.map fun nd => nd.id

/-- `n` is a live node id. -/
def liveId (g : Graph) (n : Nat) : Prop :=
  n ∈ g.idsOf

instance (g : Graph) (n : Nat) : Decidable (liveId g n) := by
  unfold liveId; infer_instance

/-- Structural well-formedness maintained by the optimizer passes: every
`no_delete` member is a live node, all live ids are below the fresh
counter, and node ids are unique. -/
def Inv (g : Graph) : Prop :=
  (∀ n ∈ g.noDelete, liveId g n) ∧
  (∀ n ∈ g.idsOf, n < g.nextId) ∧
  g.idsOf.Nodup

instance (g : Graph) : Decidable (Inv g) := by
  unfold Inv; infer_instance

end Graph

/-- `FusedUnary::process` on one input buffer: apply the stored function
list, in order, to every element; `interp` gives each stored `fn(f32) ->
f32` pointer its mathematical meaning. -/
def fusedProcess (interp : UnaryKind → α → α) (fs : List UnaryKind) (data : List α) : List α :=
  data.map fun a => fs.foldl (fun x f => interp f x) a

/-- The five per-axis vectors are in lockstep, `indexes` is a valid
permutation into storage. -/
def ShapeTracker.WF (t : ShapeTracker) : Prop :=
  t.indexes.length = t.dims.length ∧
  t.fake.length = t.dims.length ∧
  t.slices.length = t.dims.length ∧
  t.padding.length = t.dims.length ∧
  t.indexes.Nodup ∧
  ∀ i ∈ t.indexes, i < t.dims.length

instance (t : ShapeTracker) : Decidable t.WF := by
  unfold ShapeTracker.WF; infer_instance

/-- All dims resolved (`Known`). -/
def ShapeTracker.allKnown (t : ShapeTracker) : Prop :=
  ∀ d ∈ t.dims, d.to_usize.isSome = true

instance (t : ShapeTracker) : Decidable t.allKnown := by
  unfold ShapeTracker.allKnown; infer_instance

/-- The concrete graphs used for the optimizer claims. -/
def gC4 : Graph where
  nodes := [⟨0, Op.Exp2, [4]⟩, ⟨1, Op.Log2, [4]⟩, ⟨2, Op.Sqrt, [4]⟩, ⟨3, Op.Other "Out", [4]⟩]
  edges := [⟨0, 1, 1⟩, ⟨1, 2, 2⟩, ⟨2, 3, 3⟩]
  noDelete := []
  toRetrieve := []
  idRemap := []
  nextId := 4

def gC2 : Graph where
  nodes := [⟨0, Op.Exp2, [4]⟩, ⟨1, Op.Log2, [4]⟩, ⟨2, Op.Other "Out", [4]⟩]
  edges := [⟨0, 1, 1⟩, ⟨1, 2, 2⟩]
  noDelete := [1]
  toRetrieve := []
  idRemap := []
  nextId := 3

/-- The padded rank-1 tracker used to witness the C1 theorem. -/
def tC1W : ShapeTracker :=
  ((ShapeTracker.new [Dim.Known 3]).pad [(2, 2)]).getD (ShapeTracker.new [])

def gCW : Graph where
  nodes := [⟨0, Op.Exp2, [4]⟩, ⟨1, Op.Other "Out", [4]⟩]
  edges := [⟨0, 1, 0⟩]
  noDelete := [1]
  toRetrieve := []
  idRemap := []
  nextId := 2

/-- The matmul-pattern graph family: operands `0` (`[m, k]`) and `1`
(`[k, n]`), the decomposed product `Permute 2 → Expand 3 → Mul 5 ←
Expand 4 ← 0` with `Mul 5 → SumReduce 6`, and two consumers `7`, `8` of
the reduce node with edge weights `w7`, `w8`. -/
def gC3 (m k n w7 w8 : Nat) : Graph where
  nodes := [⟨0, Op.Other "InputA", [m, k]⟩, ⟨1, Op.Other "InputB", [k, n]⟩,
    ⟨2, Op.Permute, [n, k]⟩, ⟨3, Op.Expand, [m, n, k]⟩, ⟨4, Op.Expand, [m, n, k]⟩,
    ⟨5, Op.Mul, [m, n, k]⟩, ⟨6, Op.SumReduce, [m, n]⟩,
    ⟨7, Op.Other "Out1", [m, n]⟩, ⟨8, Op.Other "Out2", [m, n]⟩]
  edges := [⟨1, 2, 2⟩, ⟨2, 3, 3⟩, ⟨0, 4, 4⟩, ⟨3, 5, 5⟩, ⟨4, 5, 6⟩, ⟨5, 6, 7⟩,
    ⟨6, 7, w7⟩, ⟨6, 8, w8⟩]
  noDelete := []
  toRetrieve := []
  idRemap := []
  nextId := 9

/-! ## Claim theorems -/

/-- C5: the claim reads "expand(axis, d) then remove_dim(axis) restores
t exactly: the dims, indexes, fake, slices, and padding vectors all equal
their values before".  The source's `remove_dim` removes the storage slot
from `dims`, `indexes` and `fake` but not from `slices`/`padding`, so the
round trip leaves a stale trailing entry in those two vectors and the five
parallel vectors are no longer of equal length: the code contradicts the
tracker's own parallel-vector design. -/
theorem claim_C5 :
    (((ShapeTracker.new [Dim.Known 3]).expand 0 (Dim.Known 4)).remove_dim 0).dims =
      (ShapeTracker.new [Dim.Known 3]).dims ∧
    (((ShapeTracker.new [Dim.Known 3]).expand 0 (Dim.Known 4)).remove_dim 0).indexes =
      (ShapeTracker.new [Dim.Known 3]).indexes ∧
    (((ShapeTracker.new [Dim.Known 3]).expand 0 (Dim.Known 4)).remove_dim 0).fake =
      (ShapeTracker.new [Dim.Known 3]).fake ∧
    (((ShapeTracker.new [Dim.Known 3]).expand 0 (Dim.Known 4)).remove_dim 0).slices =
      [(0, i32Max), (0, i32Max)] ∧
    (((ShapeTracker.new [Dim.Known 3]).expand 0 (Dim.Known 4)).remove_dim 0).padding =
      [(0, 0), (0, 0)] ∧
    (ShapeTracker.new [Dim.Known 3]).slices = [(0, i32Max)] := by
  decide

/-- C6: the claim (and the spec's testable property) reads "padding (2,2)
on an axis of known size 3 followed by slicing (1,4) yields an effective
logical size of 3, `n_elements()` returns 3".  The code records padding
`(1,2)` and slice `(0,4)` after the two calls — the slice's lower bound
consumed one unit of padding but the upper bound was not shifted — so
`n_elements()` returns `min(3+1+2, 4) - 0 = 4`, not 3; the semantically
intended window `[1,4)` of the padded axis has 3 elements.
`n_physical_elements()` does return the unpadded, unsliced 3. -/
theorem claim_C6 :
    ((ShapeTracker.new [Dim.Known 3]).pad [(2, 2)]).map
        (fun t => ((t.slice [(1, 4)]).n_elements, (t.slice [(1, 4)]).n_physical_elements)) =
      some (4, 3) := by
  decide

/-- C7: the claim (and the source's own doc comments "Counts unknown dims
as size 0") reads that a tracker containing an `Unknown` dim has
`n_elements() = 0` and `n_physical_elements() = 0`.  The code instead
filters unknown dims out of the product (`filter_map` / `flat_map`), so
they contribute a factor of 1: on `new([Unknown('a')])` both counts
evaluate to 1, contradicting the code's own documentation. -/
theorem claim_C7 :
    (ShapeTracker.new [Dim.Unknown 'a']).n_elements = 1 ∧
    (ShapeTracker.new [Dim.Unknown 'a']).n_physical_elements = 1 ∧
    (ShapeTracker.new [Dim.Known 5, Dim.Unknown 'a']).n_elements = 5 := by
  decide

/-- C8 counterexample: the claim reads that on an axis with a finite slice
upper bound, `pad` with any non-zero padding pair aborts "regardless of
whether the non-zero amount is in the before or the after component".
On `new([Known(5)])` sliced to upper bound 3 (finite), padding `(2, 0)` —
non-zero in the before component — does not abort: `pad` returns normally
with the front padding recorded. -/
theorem claim_C8_counterexample :
    ((((ShapeTracker.new [Dim.Known 5]).slice [(0, 3)]).slices.getD 0 (0, 0)).2 = 3 ∧
      3 ≠ i32Max) ∧
    (((ShapeTracker.new [Dim.Known 5]).slice [(0, 3)]).pad [(2, 0)]).isSome = true := by
  decide

/-- C2 counterexample: `gC2` is `Exp2(0) → Log2(1) → Other(2)` with node 1
in `no_delete`.  `UnaryFusionOptimizer::optimize` only checks the *source*
node against `no_delete`, so it fuses node 1 into node 0 and removes the
protected node 1 from the graph (its membership migrating to node 0),
contradicting "every node that is a member of the no_delete set before an
optimizer pass runs is still present in the graph after that pass". -/
theorem claim_C2_counterexample :
    1 ∈ gC2.noDelete ∧
    (Graph.unaryOptimize gC2).map (fun g' => g'.nodes.map fun nd => nd.id) = some [0, 2] ∧
    (Graph.unaryOptimize gC2).map (fun g' => g'.noDelete) = some [0] := by
  decide

/-- C4 counterexample: on the chain `Exp2(0) → Log2(1) → Sqrt(2) →
Other(3)` (`gC4`, single fan-out everywhere, nothing protected), one
application of `UnaryFusionOptimizer::optimize` does not collapse the
chain to one fused node: the snapshot scan merges node 1 into node 0
(`[exp2, log2]`) and then, reaching node 2, finds its successor is not
unary — leaving a two-operator chain `FusedUnary[exp2, log2] → Sqrt`. -/
theorem claim_C4_counterexample :
    (Graph.unaryOptimize gC4).map (fun g' => g'.nodes.map fun nd => (nd.id, nd.op)) =
      some [(0, Op.FusedUnary [UnaryKind.exp2, UnaryKind.log2]), (2, Op.Sqrt),
        (3, Op.Other "Out")] := by
  decide

/-- C4 (amended): one application of `UnaryFusionOptimizer::optimize` on
the chain `Exp2 → Log2 → Sqrt` leaves `FusedUnary[exp2, log2] → Sqrt`; a
second application collapses it to exactly one fused node whose function
list is `[exp2, log2, sqrt]` in that order.  `FusedUnary::process` applies
the stored functions in that order to every element of its input, matching
the composition of the three original operators. -/
theorem claim_C4 :
    (∃ g1 g2, Graph.unaryOptimize gC4 = some g1 ∧
      (g1.nodes.map fun nd => (nd.id, nd.op)) =
        [(0, Op.FusedUnary [UnaryKind.exp2, UnaryKind.log2]), (2, Op.Sqrt),
          (3, Op.Other "Out")] ∧
      Graph.unaryOptimize g1 = some g2 ∧
      (g2.nodes.map fun nd => (nd.id, nd.op)) =
        [(0, Op.FusedUnary [UnaryKind.exp2, UnaryKind.log2, UnaryKind.sqrt]),
          (3, Op.Other "Out")]) ∧
    ∀ (α : Type) (interp : UnaryKind → α → α) (data : List α),
      fusedProcess interp [UnaryKind.exp2, UnaryKind.log2, UnaryKind.sqrt] data =
        data.map fun a => interp UnaryKind.sqrt (interp UnaryKind.log2 (interp UnaryKind.exp2 a)) := by
  refine ⟨⟨(Graph.unaryOptimize gC4).getD gC4, ((Graph.unaryOptimize gC4).bind Graph.unaryOptimize).getD gC4, ?_, ?_, ?_, ?_⟩, ?_⟩
  · decide
  · decide
  · decide
  · decide
  · intro α interp data
    simp [fusedProcess, List.foldl]

/-- `padStep` panics exactly when the axis's after-padding is non-zero and
its slice upper bound is finite. -/
theorem padStep_none (acc : ShapeTracker) (p : Nat × Nat × Nat) :
    ShapeTracker.padStep acc p = none ↔
      p.2.2 ≠ 0 ∧ (acc.slices.getD (acc.indexes.getD p.1 0) (0, 0)).2 ≠ i32Max := by
  unfold ShapeTracker.padStep
  dsimp only
  split
  · simp_all
  · simp_all

/-- On success `padStep` changes only the `padding` vector. -/
theorem padStep_some (acc acc' : ShapeTracker) (p : Nat × Nat × Nat)
    (h : ShapeTracker.padStep acc p = some acc') :
    acc'.slices = acc.slices ∧ acc'.indexes = acc.indexes := by
  unfold ShapeTracker.padStep at h
  dsimp only at h
  split at h
  · exact absurd h (by simp)
  · cases h
    exact ⟨rfl, rfl⟩

theorem pad_none_aux (S : List (Nat × Nat)) (I : List Nat) :
    ∀ (pd : List (Nat × Nat)) (k : Nat) (acc : ShapeTracker),
      acc.slices = S → acc.indexes = I →
      ((List.enumFrom k pd).foldlM ShapeTracker.padStep acc = none ↔
        ∃ i, i < pd.length ∧ (pd.getD i (0, 0)).2 ≠ 0 ∧
          (S.getD (I.getD (k + i) 0) (0, 0)).2 ≠ i32Max) := by
  intro pd
  induction pd with
  | nil =>
    intro k acc _ _
    simp [List.foldlM]
  | cons hd tl ih =>
    intro k acc hS hI
    rw [List.enumFrom_cons, List.foldlM_cons]
    cases hstep : ShapeTracker.padStep acc (k, hd) with
    | none =>
      have hcond := (padStep_none acc (k, hd)).mp hstep
      simp only [hS, hI] at hcond
      constructor
      · intro _
        exact ⟨0, by simp, by simpa using hcond.1, by simpa using hcond.2⟩
      · intro _
        rfl
    | some acc' =>
      have hnotpanic : ¬(hd.2 ≠ 0 ∧ (S.getD (I.getD k 0) (0, 0)).2 ≠ i32Max) := by
        intro hcond
        have h0 : ShapeTracker.padStep acc (k, hd) = none :=
          (padStep_none acc (k, hd)).mpr (by simp only [hS, hI]; exact hcond)
        rw [hstep] at h0
        exact Option.noConfusion h0
      have hinv := padStep_some acc acc' (k, hd) hstep
      have hrec := ih (k + 1) acc' (hinv.1.trans hS) (hinv.2.trans hI)
      show List.foldlM ShapeTracker.padStep acc' (List.enumFrom (k + 1) tl) = none ↔ _
      rw [hrec]
      constructor
      · rintro ⟨i, hi, hne, hfin⟩
        refine ⟨i + 1, by simpa using hi, by simpa using hne, ?_⟩
        have harith : k + (i + 1) = k + 1 + i := by omega
        rwa [harith]
      · rintro ⟨i, hi, hne, hfin⟩
        cases i with
        | zero =>
          exact absurd ⟨by simpa using hne, by simpa using hfin⟩ hnotpanic
        | succ i =>
          refine ⟨i, by simp only [List.length_cons] at hi; omega, by simpa using hne, ?_⟩
          have harith : k + 1 + i = k + (i + 1) := by omega
          rwa [harith]

/-- C8 (amended): `pad` aborts if and only if some padding pair has a
non-zero **after** component on an axis whose slice upper bound is finite
(not the `i32::MAX` sentinel); a non-zero **before** component alone never
aborts — the source's guard `*e != 0 && slices[idx].1 as i32 != i32::MAX`
only inspects the after component. -/
theorem claim_C8 (t : ShapeTracker) (pd : List (Nat × Nat)) :
    t.pad pd = none ↔
      ∃ i, i < pd.length ∧ (pd.getD i (0, 0)).2 ≠ 0 ∧
        (t.slices.getD (t.indexes.getD i 0) (0, 0)).2 ≠ i32Max := by
  have h := pad_none_aux t.slices t.indexes pd 0 t rfl rfl
  simpa [ShapeTracker.pad, List.enum] using h

theorem getD_set_ne {α : Type} (l : List α) (i p : Nat) (a d : α) (h : i ≠ p) :
    (l.set i a).getD p d = l.getD p d := by
  simp [List.getD_eq_getElem?_getD, List.getElem?_set_ne h]

theorem getD_set_self {α : Type} (l : List α) (i : Nat) (a d : α) (h : i < l.length) :
    (l.set i a).getD i d = a := by
  simp [List.getD_eq_getElem?_getD, List.getElem?_set_self h]

theorem resolveStep_length (idxs : List Nat) (src : List Dim) (srcIdxs : List Nat)
    (dto : Bool) (cur : List Dim) (i : Nat) :
    (resolveStep idxs src srcIdxs dto cur i).length = cur.length := by
  unfold resolveStep
  dsimp only
  split
  · split <;> simp
  · rfl

theorem resolveStep_ne (idxs : List Nat) (src : List Dim) (srcIdxs : List Nat)
    (dto : Bool) (cur : List Dim) (i p : Nat) (h : p ≠ idxs.getD i 0) :
    (resolveStep idxs src srcIdxs dto cur i).getD p Dim.default =
      cur.getD p Dim.default := by
  unfold resolveStep
  dsimp only
  split
  · split
    · rw [getD_set_ne _ _ _ _ _ (Ne.symm h), getD_set_ne _ _ _ _ _ (Ne.symm h)]
    · rw [getD_set_ne _ _ _ _ _ (Ne.symm h)]
  · rfl

theorem resolveStep_self (idxs : List Nat) (src : List Dim) (srcIdxs : List Nat)
    (dto : Bool) (cur : List Dim) (i : Nat) (h : idxs.getD i 0 < cur.length) :
    (resolveStep idxs src srcIdxs dto cur i).getD (idxs.getD i 0) Dim.default =
      resolvePhi src srcIdxs dto i (cur.getD (idxs.getD i 0) Dim.default) := by
  unfold resolveStep resolvePhi
  dsimp only
  split
  case isTrue hv =>
    rw [getD_set_self _ _ _ _ h]
    split
    · exact getD_set_self _ _ _ _ (by simpa using h)
    · exact getD_set_self _ _ _ _ h
  case isFalse hv =>
    rfl

/-- `resolvePhi` on an already-resolved axis is the identity. -/
theorem resolvePhi_known (src : List Dim) (srcIdxs : List Nat) (dto : Bool) (i v : Nat) :
    resolvePhi src srcIdxs dto i (Dim.Known v) = Dim.Known v := by
  simp [resolvePhi]

/-- `resolvePhi` on an unresolved axis fills from the source position. -/
theorem resolvePhi_fill (src : List Dim) (srcIdxs : List Nat) (dto : Bool) (i : Nat) (w : Dim)
    (hw : src.getD (srcIdxs.getD i 0) Dim.default = w) :
    resolvePhi src srcIdxs dto i (Dim.Unknown '-') =
      (if w = Dim.Unknown '-' ∧ dto then Dim.Known 1 else w) := by
  unfold resolvePhi
  dsimp only
  rw [if_pos rfl, hw]

theorem foldl_length_inv {α : Type} (step : List α → Nat → List α)
    (hlen : ∀ st i, (step st i).length = st.length) :
    ∀ (l : List Nat) (st : List α), (l.foldl step st).length = st.length := by
  intro l
  induction l with
  | nil => intro st; rfl
  | cons x xs ih =>
    intro st
    rw [List.foldl_cons, ih, hlen]

theorem foldl_untouched {α : Type} (step : List α → Nat → List α) (ia : Nat → Nat) (d : α)
    (hupd : ∀ st i p, p ≠ ia i → (step st i).getD p d = st.getD p d) :
    ∀ (l : List Nat) (st : List α) (p : Nat), (∀ i ∈ l, p ≠ ia i) →
      (l.foldl step st).getD p d = st.getD p d := by
  intro l
  induction l with
  | nil => intro st p _; rfl
  | cons x xs ih =>
    intro st p hp
    rw [List.foldl_cons, ih _ _ (fun i hi => hp i (List.mem_cons_of_mem _ hi)),
      hupd _ _ _ (hp x (List.mem_cons_self _ _))]

/-- Value at a touched slot after folding an update function over
`range n`, when each iteration touches a distinct slot. -/
theorem foldl_range_update {α : Type} (step : List α → Nat → List α) (ia : Nat → Nat)
    (φ : Nat → α → α) (d : α)
    (hupd : ∀ st i p, p ≠ ia i → (step st i).getD p d = st.getD p d)
    (hlen : ∀ st i, (step st i).length = st.length)
    (hself : ∀ st i, ia i < st.length → (step st i).getD (ia i) d = φ i (st.getD (ia i) d)) :
    ∀ (n : Nat) (st : List α),
      (∀ i j, i < n → j < n → ia i = ia j → i = j) →
      (∀ i, i < n → ia i < st.length) →
      ∀ j, j < n → ((List.range n).foldl step st).getD (ia j) d = φ j (st.getD (ia j) d) := by
  intro n
  induction n with
  | zero =>
    intro st _ _ j hj
    exact absurd hj (Nat.not_lt_zero j)
  | succ n ih =>
    intro st hinj hb j hj
    rw [List.range_succ, List.foldl_append, List.foldl_cons, List.foldl_nil]
    by_cases hjn : j = n
    · subst hjn
      have hF : ((List.range j).foldl step st).getD (ia j) d = st.getD (ia j) d := by
        refine foldl_untouched step ia d hupd _ _ _ ?_
        intro i hi heq
        have hij : i < j := List.mem_range.mp hi
        have := hinj j i (by omega) (by omega) heq
        omega
      have hlenF : ia j < ((List.range j).foldl step st).length := by
        rw [foldl_length_inv step hlen]
        exact hb j hj
      rw [hself _ _ hlenF, hF]
    · have hjn' : j < n := by omega
      rw [hupd _ _ _ (fun heq => hjn (hinj j n (by omega) (by omega) heq))]
      exact ih st (fun i' j' hi' hj' => hinj i' j' (by omega) (by omega))
        (fun i' hi' => hb i' (by omega)) j hjn'

theorem getD_eq_getElem {α : Type} (l : List α) (i : Nat) (d : α) (h : i < l.length) :
    l.getD i d = l[i] := by
  simp [List.getD_eq_getElem?_getD, List.getElem?_eq_getElem h]

/-- The logical-position storage lookup is injective for a well-formed
tracker's `indexes`. -/
theorem indexes_getD_inj (idxs : List Nat) (hnd : idxs.Nodup) (i j : Nat)
    (hi : i < idxs.length) (hj : j < idxs.length)
    (h : idxs.getD i 0 = idxs.getD j 0) : i = j := by
  rw [getD_eq_getElem _ _ _ hi, getD_eq_getElem _ _ _ hj] at h
  exact (List.Nodup.getElem_inj_iff hnd).mp h

theorem indexes_getD_lt (idxs : List Nat) (n : Nat) (hb : ∀ x ∈ idxs, x < n)
    (i : Nat) (hi : i < idxs.length) : idxs.getD i 0 < n := by
  rw [getD_eq_getElem _ _ _ hi]
  exact hb _ (List.getElem_mem hi)

/-- C9: for well-formed trackers of matching logical rank,
`resolve_local_dyn_dims(a, b, default_to_one)` fills, at every logical
position, an axis that is still unresolved (`Unknown('-')`, the default
symbol) in one tracker from the other tracker's resolved value at the same
logical position (even with `default_to_one = false`); an axis unresolved
in both is set to `Known(1)` iff `default_to_one`, and otherwise left
unresolved. -/
theorem claim_C9 (a b : ShapeTracker) (dto : Bool) (i : Nat)
    (hwa : a.WF) (hwb : b.WF) (hrank : a.dims.length = b.dims.length)
    (hi : i < a.dims.length) :
    (∀ v, a.dims.getD (a.indexes.getD i 0) Dim.default = Dim.Unknown '-' →
      b.dims.getD (b.indexes.getD i 0) Dim.default = Dim.Known v →
      (resolve_local_dyn_dims a b dto).1.dims.getD (a.indexes.getD i 0) Dim.default =
          Dim.Known v ∧
        (resolve_local_dyn_dims a b dto).2.dims.getD (b.indexes.getD i 0) Dim.default =
          Dim.Known v) ∧
    (∀ v, a.dims.getD (a.indexes.getD i 0) Dim.default = Dim.Known v →
      b.dims.getD (b.indexes.getD i 0) Dim.default = Dim.Unknown '-' →
      (resolve_local_dyn_dims a b dto).1.dims.getD (a.indexes.getD i 0) Dim.default =
          Dim.Known v ∧
        (resolve_local_dyn_dims a b dto).2.dims.getD (b.indexes.getD i 0) Dim.default =
          Dim.Known v) ∧
    (a.dims.getD (a.indexes.getD i 0) Dim.default = Dim.Unknown '-' →
      b.dims.getD (b.indexes.getD i 0) Dim.default = Dim.Unknown '-' →
      (resolve_local_dyn_dims a b dto).1.dims.getD (a.indexes.getD i 0) Dim.default =
          (if dto then Dim.Known 1 else Dim.Unknown '-') ∧
        (resolve_local_dyn_dims a b dto).2.dims.getD (b.indexes.getD i 0) Dim.default =
          (if dto then Dim.Known 1 else Dim.Unknown '-')) := by
  obtain ⟨hal, _, _, _, hand, hab⟩ := hwa
  obtain ⟨hbl, _, _, _, hbnd, hbb⟩ := hwb
  set n := a.dims.length with hn
  set aDims := (List.range n).foldl (resolveStep a.indexes b.dims b.indexes dto) a.dims
    with haDims
  have hares : ∀ j, j < n →
      aDims.getD (a.indexes.getD j 0) Dim.default =
        resolvePhi b.dims b.indexes dto j (a.dims.getD (a.indexes.getD j 0) Dim.default) := by
    intro j hj
    exact foldl_range_update _ (fun j => a.indexes.getD j 0) _ Dim.default
      (fun st i' p h => resolveStep_ne _ _ _ _ _ _ _ h)
      (fun st i' => resolveStep_length _ _ _ _ _ _)
      (fun st i' h => resolveStep_self _ _ _ _ _ _ h)
      n a.dims
      (fun i' j' hi' hj' h => indexes_getD_inj a.indexes hand i' j'
        (by omega) (by omega) h)
      (fun i' hi' => indexes_getD_lt a.indexes n hab i' (by omega))
      j hj
  have hbres : ∀ j, j < n →
      (resolve_local_dyn_dims a b dto).2.dims.getD (b.indexes.getD j 0) Dim.default =
        resolvePhi aDims a.indexes dto j (b.dims.getD (b.indexes.getD j 0) Dim.default) := by
    intro j hj
    show ((List.range n).foldl (resolveStep b.indexes aDims a.indexes dto) b.dims).getD
      (b.indexes.getD j 0) Dim.default = _
    exact foldl_range_update _ (fun j => b.indexes.getD j 0) _ Dim.default
      (fun st i' p h => resolveStep_ne _ _ _ _ _ _ _ h)
      (fun st i' => resolveStep_length _ _ _ _ _ _)
      (fun st i' h => resolveStep_self _ _ _ _ _ _ h)
      n b.dims
      (fun i' j' hi' hj' h => indexes_getD_inj b.indexes hbnd i' j'
        (by omega) (by omega) h)
      (fun i' hi' => indexes_getD_lt b.indexes b.dims.length hbb i' (by omega))
      j hj
  have hares' : (resolve_local_dyn_dims a b dto).1.dims.getD (a.indexes.getD i 0) Dim.default =
      resolvePhi b.dims b.indexes dto i (a.dims.getD (a.indexes.getD i 0) Dim.default) :=
    hares i hi
  have hbres' := hbres i hi
  refine ⟨?_, ?_, ?_⟩
  · intro v hda hdb
    have h1 : resolvePhi b.dims b.indexes dto i (Dim.Unknown '-') = Dim.Known v := by
      rw [resolvePhi_fill _ _ _ _ _ hdb]
      simp
    constructor
    · rw [hares', hda, h1]
    · rw [hbres', hdb, resolvePhi_known]
  · intro v hda hdb
    have haD : aDims.getD (a.indexes.getD i 0) Dim.default = Dim.Known v := by
      rw [hares i hi, hda, resolvePhi_known]
    constructor
    · rw [hares', hda, resolvePhi_known]
    · rw [hbres', hdb, resolvePhi_fill _ _ _ _ _ haD]
      simp
  · intro hda hdb
    have h1 : resolvePhi b.dims b.indexes dto i (Dim.Unknown '-') =
        (if dto then Dim.Known 1 else Dim.Unknown '-') := by
      rw [resolvePhi_fill _ _ _ _ _ hdb]
      cases dto <;> simp
    have haD : aDims.getD (a.indexes.getD i 0) Dim.default =
        (if dto then Dim.Known 1 else Dim.Unknown '-') := by
      rw [hares i hi, hda, h1]
    constructor
    · rw [hares', hda, h1]
    · rw [hbres', hdb, resolvePhi_fill _ _ _ _ _ haD]
      cases dto <;> simp

/-- C9 witness: `a = new([Unknown('-'), Known(3)])`,
`b = new([Known(5), Unknown('-')])`, `default_to_one = false`: `a`'s first
axis resolves to `Known(5)` and `b`'s second to `Known(3)`. -/
theorem claim_C9_witness :
    (ShapeTracker.new [Dim.Unknown '-', Dim.Known 3]).WF ∧
    ((resolve_local_dyn_dims (ShapeTracker.new [Dim.Unknown '-', Dim.Known 3])
        (ShapeTracker.new [Dim.Known 5, Dim.Unknown '-']) false).1.dims.getD 0 Dim.default =
      Dim.Known 5 ∧
    (resolve_local_dyn_dims (ShapeTracker.new [Dim.Unknown '-', Dim.Known 3])
        (ShapeTracker.new [Dim.Known 5, Dim.Unknown '-']) false).2.dims.getD 0 Dim.default =
      Dim.Known 5) := by
  refine ⟨by decide, ?_⟩
  have h := claim_C9 (ShapeTracker.new [Dim.Unknown '-', Dim.Known 3])
    (ShapeTracker.new [Dim.Known 5, Dim.Unknown '-']) false 0
    (by decide) (by decide) (by decide) (by decide)
  exact h.1 5 (by decide) (by decide)

theorem map_id_filter (p : Nat → Bool) (l : List GNode) :
    ((l.filter fun nd => p nd.id).map fun nd => nd.id) =
      (l.map fun nd => nd.id).filter p := by
  induction l with
  | nil => rfl
  | cons hd tl ih =>
    simp only [List.filter_cons, List.map_cons]
    by_cases h : p hd.id
    · rw [if_pos h, if_pos h, List.map_cons, ih]
    · rw [if_neg h, if_neg h, ih]

theorem idsOf_removeNode (g : Graph) (n : Nat) :
    (g.removeNode n).idsOf = g.idsOf.filter fun m => m ≠ n := by
  unfold Graph.removeNode Graph.idsOf
  dsimp only
  exact map_id_filter (fun m => decide (m ≠ n)) g.nodes

theorem idsOf_addOp2 (g : Graph) (op : Op) (shape : List Nat) (i0 i1 : Nat) :
    (g.addOp2 op shape i0 i1).1.idsOf = g.idsOf ++ [g.nextId] := by
  unfold Graph.addOp2 Graph.idsOf
  dsimp only
  rw [List.map_append]
  rfl

theorem idsOf_setOp (g : Graph) (n : Nat) (op : Op) : (g.setOp n op).idsOf = g.idsOf := by
  unfold Graph.setOp Graph.idsOf
  dsimp only
  rw [List.map_map]
  apply List.map_congr_left
  intro nd _
  by_cases h : nd.id = n <;> simp [h]

theorem addEdge_fold_fields (l : List GEdge) (n : Nat) :
    ∀ g : Graph,
      (l.foldl (fun h e => h.addEdge n e.dst e.w) g).nodes = g.nodes ∧
      (l.foldl (fun h e => h.addEdge n e.dst e.w) g).noDelete = g.noDelete ∧
      (l.foldl (fun h e => h.addEdge n e.dst e.w) g).nextId = g.nextId := by
  induction l with
  | nil => intro g; exact ⟨rfl, rfl, rfl⟩
  | cons hd tl ih =>
    intro g
    rw [List.foldl_cons]
    exact ih _

theorem lookupNode_live (g : Graph) (n : Nat) (p : Op × List Nat)
    (h : g.lookupNode n = some p) : Graph.liveId g n := by
  unfold Graph.lookupNode at h
  cases hf : g.nodes.find? fun nd => nd.id = n with
  | none => rw [hf] at h; exact Option.noConfusion h
  | some nd =>
    have hmem := List.mem_of_find?_eq_some hf
    have hid : nd.id = n := by simpa using List.find?_some hf
    exact List.mem_map.mpr ⟨nd, hmem, hid⟩

theorem mem_getDests_live (g : Graph) (n : Nat) (p : Nat × Op × List Nat)
    (h : p ∈ g.getDests n) : Graph.liveId g p.1 := by
  unfold Graph.getDests at h
  obtain ⟨e, _, hee⟩ := List.mem_filterMap.mp h
  cases hl : g.lookupNode e.dst with
  | none => rw [hl] at hee; exact Option.noConfusion hee
  | some q =>
    rw [hl, Option.map_some'] at hee
    obtain rfl := Option.some.inj hee
    exact lookupNode_live g e.dst q hl

theorem mem_getSources_live (g : Graph) (n : Nat) (p : Nat × Op × List Nat)
    (h : p ∈ g.getSources n) : Graph.liveId g p.1 := by
  unfold Graph.getSources at h
  obtain ⟨e, _, hee⟩ := List.mem_filterMap.mp h
  cases hl : g.lookupNode e.src with
  | none => rw [hl] at hee; exact Option.noConfusion hee
  | some q =>
    rw [hl, Option.map_some'] at hee
    obtain rfl := Option.some.inj hee
    exact lookupNode_live g e.src q hl

theorem mem_nodes_removeNode (g : Graph) (x : Nat) (nd : GNode) :
    nd ∈ (g.removeNode x).nodes ↔ (nd ∈ g.nodes ∧ nd.id ≠ x) := by
  unfold Graph.removeNode
  dsimp only
  rw [List.mem_filter]
  simp

theorem mem_edges_removeNode (g : Graph) (x : Nat) (e : GEdge) :
    e ∈ (g.removeNode x).edges ↔ (e ∈ g.edges ∧ e.src ≠ x ∧ e.dst ≠ x) := by
  unfold Graph.removeNode
  dsimp only
  rw [List.mem_filter]
  simp

theorem idsOf_moveReferences (g : Graph) (a b : Nat) :
    (g.moveReferences a b).idsOf = g.idsOf := rfl

theorem addEdge_fold_edges (n : Nat) :
    ∀ (l : List GEdge) (g : Graph),
      (l.foldl (fun h e => h.addEdge n e.dst e.w) g).edges =
        g.edges ++ l.map fun e => ⟨n, e.dst, e.w⟩ := by
  intro l
  induction l with
  | nil => intro g; simp
  | cons hd tl ih =>
    intro g
    rw [List.foldl_cons, ih, List.map_cons]
    show (g.edges ++ [⟨n, hd.dst, hd.w⟩]) ++ _ = _
    rw [List.append_assoc]
    rfl

/-- Forward computation of one successful `MatMulOptimizer` scan step: when
every pattern guard of `matmulStep` is satisfied at `node`, the step
returns exactly the splice — add the fused node, re-attach the reduce
node's outgoing edges, migrate references, remove the five matched
nodes. -/
theorem matmulStep_splice (g : Graph) (node e1 e2 mul sr i0 i1 : Nat)
    (opP op1 opm op2 opr op0 opb : Op)
    (shP sh1 shm sh2 shr sh0 shb : List Nat)
    (hlook : g.lookupNode node = some (opP, shP))
    (hnP : opP.opName = "Permute") (hlP : shP.length = 2)
    (hD1 : g.getDests node = [(e1, op1, sh1)])
    (hn1 : op1.opName = "Expand") (hl1 : sh1.length = 3)
    (hD2 : g.getDests e1 = [(mul, opm, shm)])
    (hnm : opm.opName = "Mul") (hlm : shm.length = 3)
    (hSf : (g.getSources mul).filter (fun s => s.1 ≠ e1) = [(e2, op2, sh2)])
    (hn2 : op2.opName = "Expand") (hl2 : sh2.length = 3)
    (hD3 : g.getDests mul = [(sr, opr, shr)])
    (hnr : opr.opName = "SumReduce") (hlr : shr.length = 2)
    (hp1 : node ∉ g.noDelete) (hp2 : e1 ∉ g.noDelete)
    (hp3 : e2 ∉ g.noDelete) (hp4 : mul ∉ g.noDelete)
    (hs0 : (g.getSources e2).getLast? = some (i0, op0, sh0))
    (hs1 : (g.getSources node).getLast? = some (i1, opb, shb)) :
    Graph.matmulStep g node =
      some (((((((((g.addOp2 Op.MatMul2D [sh0.getD 0 0, shb.getD 1 0] i0 i1).1.outEdges
        sr).foldl (fun h e => h.addEdge g.nextId e.dst e.w)
        (g.addOp2 Op.MatMul2D [sh0.getD 0 0, shb.getD 1 0] i0 i1).1).moveReferences sr
        g.nextId).removeNode e1).removeNode e2).removeNode node).removeNode
        mul).removeNode sr) := by
  have hguard : ¬(node ∈ g.noDelete ∨ e1 ∈ g.noDelete ∨ e2 ∈ g.noDelete ∨
      mul ∈ g.noDelete) := by
    push_neg
    exact ⟨hp1, hp2, hp3, hp4⟩
  unfold Graph.matmulStep
  rw [hlook]
  simp only []
  rw [if_neg (not_not_intro ⟨hnP, hlP⟩), hD1]
  simp only []
  rw [if_neg (not_not_intro ⟨hn1, hl1⟩), hD2]
  simp only []
  rw [if_neg (not_not_intro ⟨hnm, hlm⟩), hSf]
  simp only []
  rw [if_neg (not_not_intro ⟨hn2, hl2⟩), hD3]
  simp only []
  rw [if_neg (not_not_intro ⟨hnr, hlr⟩), if_neg hguard, hs0, hs1]
  rfl

/-- C3: for **every** graph in which the decomposed-matmul pattern
matches at `node` — `node` holds a `Permute` of rank 2 with sole consumer
an `Expand` `e1` of rank 3, whose sole consumer is a `Mul` of rank 3 whose
other source is an `Expand` `e2` of rank 3 (itself with sole consumer the
`Mul`), and whose sole consumer is a `SumReduce` `sr` of rank 2; none of
Permute/Expand/Expand/Mul protected; the operand nodes `i0` (feeding `e2`,
declared shape `sh0`) and `i1` (feeding the Permute, declared shape `shb`)
distinct from the five matched nodes — the scan step replaces exactly the
five matched nodes with exactly one fresh fused `MatMul2D` node whose
declared output shape is `[sh0[0], shb[1]]` (rows of operand A, cols of
operand B), whose inputs are the two original operands, and to which every
outgoing edge of the old `SumReduce` leading outside the matched five is
re-attached with its weight.  In particular `MatMulOptimizer::optimize` on
the end-to-end family `gC3 m k n w7 w8` realizing the pattern reduces it
to exactly one fused node of shape `[m, n]`. -/
theorem claim_C3 :
    (∀ (g : Graph) (node e1 e2 mul sr i0 i1 : Nat)
      (opP op1 opm op2 opr op0 opb : Op)
      (shP sh1 shm sh2 shr sh0 shb : List Nat),
      Graph.Inv g →
      g.lookupNode node = some (opP, shP) →
      opP.opName = "Permute" → shP.length = 2 →
      g.getDests node = [(e1, op1, sh1)] →
      op1.opName = "Expand" → sh1.length = 3 →
      g.getDests e1 = [(mul, opm, shm)] →
      opm.opName = "Mul" → shm.length = 3 →
      (g.getSources mul).filter (fun s => s.1 ≠ e1) = [(e2, op2, sh2)] →
      op2.opName = "Expand" → sh2.length = 3 →
      g.getDests e2 = [(mul, opm, shm)] →
      g.getDests mul = [(sr, opr, shr)] →
      opr.opName = "SumReduce" → shr.length = 2 →
      node ∉ g.noDelete → e1 ∉ g.noDelete → e2 ∉ g.noDelete → mul ∉ g.noDelete →
      (g.getSources e2).getLast? = some (i0, op0, sh0) →
      (g.getSources node).getLast? = some (i1, opb, shb) →
      (i0 ≠ e1 ∧ i0 ≠ e2 ∧ i0 ≠ node ∧ i0 ≠ mul ∧ i0 ≠ sr) →
      (i1 ≠ e1 ∧ i1 ≠ e2 ∧ i1 ≠ node ∧ i1 ≠ mul ∧ i1 ≠ sr) →
      ∃ g', Graph.matmulStep g node = some g' ∧
        g'.idsOf = (((((g.idsOf ++ [g.nextId]).filter (fun m => m ≠ e1)).filter
          (fun m => m ≠ e2)).filter (fun m => m ≠ node)).filter
          (fun m => m ≠ mul)).filter (fun m => m ≠ sr) ∧
        (⟨g.nextId, Op.MatMul2D, [sh0.getD 0 0, shb.getD 1 0]⟩ : GNode) ∈ g'.nodes ∧
        (⟨i0, g.nextId, 0⟩ : GEdge) ∈ g'.edges ∧
        (⟨i1, g.nextId, 1⟩ : GEdge) ∈ g'.edges ∧
        (∀ e ∈ g.edges, e.src = sr →
          e.dst ≠ e1 → e.dst ≠ e2 → e.dst ≠ node → e.dst ≠ mul → e.dst ≠ sr →
          (⟨g.nextId, e.dst, e.w⟩ : GEdge) ∈ g'.edges) ∧
        ∀ nd ∈ g'.nodes,
          nd.id ≠ node ∧ nd.id ≠ e1 ∧ nd.id ≠ e2 ∧ nd.id ≠ mul ∧ nd.id ≠ sr) ∧
    (∀ m k n w7 w8 : Nat,
      ∃ g', Graph.matmulOptimize (gC3 m k n w7 w8) = some g' ∧
        (g'.nodes.filter fun nd => nd.op.opName = "MatMul2D") =
          [⟨9, Op.MatMul2D, [m, n]⟩] ∧
        (∀ nd ∈ g'.nodes, nd.id ≠ 2 ∧ nd.id ≠ 3 ∧ nd.id ≠ 4 ∧ nd.id ≠ 5 ∧ nd.id ≠ 6) ∧
        (⟨0, 9, 0⟩ : GEdge) ∈ g'.edges ∧ (⟨1, 9, 1⟩ : GEdge) ∈ g'.edges ∧
        (⟨9, 7, w7⟩ : GEdge) ∈ g'.edges ∧ (⟨9, 8, w8⟩ : GEdge) ∈ g'.edges) := by
  constructor
  · intro g node e1 e2 mul sr i0 i1 opP op1 opm op2 opr op0 opb
      shP sh1 shm sh2 shr sh0 shb
    intro hI hlook hnP hlP hD1 hn1 hl1 hD2 hnm hlm hSf hn2 hl2 hDe2 hD3 hnr hlr
      hp1 hp2 hp3 hp4 hs0 hs1 hi0 hi1
    have hliv1 : Graph.liveId g e1 :=
      mem_getDests_live g node (e1, op1, sh1) (by rw [hD1]; exact List.mem_singleton_self _)
    have hlivm : Graph.liveId g mul :=
      mem_getDests_live g e1 (mul, opm, shm) (by rw [hD2]; exact List.mem_singleton_self _)
    have hliv2 : Graph.liveId g e2 :=
      mem_getSources_live g mul (e2, op2, sh2)
        (List.mem_of_mem_filter (by rw [hSf]; exact List.mem_singleton_self _))
    have hlivr : Graph.liveId g sr :=
      mem_getDests_live g mul (sr, opr, shr) (by rw [hD3]; exact List.mem_singleton_self _)
    have hlivN : Graph.liveId g node := lookupNode_live g node _ hlook
    have hne1 : g.nextId ≠ e1 := by have := hI.2.1 e1 hliv1; omega
    have hne2 : g.nextId ≠ e2 := by have := hI.2.1 e2 hliv2; omega
    have hneN : g.nextId ≠ node := by have := hI.2.1 node hlivN; omega
    have hnem : g.nextId ≠ mul := by have := hI.2.1 mul hlivm; omega
    have hner : g.nextId ≠ sr := by have := hI.2.1 sr hlivr; omega
    refine ⟨_, matmulStep_splice g node e1 e2 mul sr i0 i1 opP op1 opm op2 opr op0 opb
      shP sh1 shm sh2 shr sh0 shb hlook hnP hlP hD1 hn1 hl1 hD2 hnm hlm hSf hn2 hl2
      hD3 hnr hlr hp1 hp2 hp3 hp4 hs0 hs1, ?_⟩
    set G1 := (g.addOp2 Op.MatMul2D [sh0.getD 0 0, shb.getD 1 0] i0 i1).1 with hG1
    set G2 := (G1.outEdges sr).foldl (fun h e => h.addEdge g.nextId e.dst e.w) G1 with hG2
    set G3 := G2.moveReferences sr g.nextId with hG3
    have hG3nodes : G3.nodes =
        g.nodes ++ [⟨g.nextId, Op.MatMul2D, [sh0.getD 0 0, shb.getD 1 0]⟩] := by
      rw [hG3]
      show G2.nodes = _
      rw [hG2, (addEdge_fold_fields (G1.outEdges sr) g.nextId G1).1]
      rfl
    have hG3edges : G3.edges =
        (g.edges ++ [⟨i0, g.nextId, 0⟩, ⟨i1, g.nextId, 1⟩]) ++
          (G1.outEdges sr).map (fun e => (⟨g.nextId, e.dst, e.w⟩ : GEdge)) := by
      rw [hG3]
      show G2.edges = _
      rw [hG2, addEdge_fold_edges g.nextId (G1.outEdges sr) G1]
      rfl
    have hG3ids : G3.idsOf = g.idsOf ++ [g.nextId] := by
      rw [hG3]
      show G2.idsOf = _
      rw [hG2, show ∀ (l : List GEdge) (h0 : Graph),
          (l.foldl (fun h e => h.addEdge g.nextId e.dst e.w) h0).idsOf = h0.idsOf
        from fun l h0 => congrArg (List.map _) (addEdge_fold_fields l _ h0).1, hG1,
        idsOf_addOp2]
    refine ⟨?_, ?_, ?_, ?_, ?_, ?_⟩
    · simp only [idsOf_removeNode, hG3ids]
    · simp only [mem_nodes_removeNode, hG3nodes]
      exact ⟨⟨⟨⟨⟨List.mem_append_right _ (List.mem_singleton_self _), hne1⟩, hne2⟩,
        hneN⟩, hnem⟩, hner⟩
    · simp only [mem_edges_removeNode, hG3edges]
      exact ⟨⟨⟨⟨⟨List.mem_append_left _ (List.mem_append_right _ (List.mem_cons_self _ _)),
        hi0.1, hne1⟩, hi0.2.1, hne2⟩, hi0.2.2.1, hneN⟩, hi0.2.2.2.1, hnem⟩,
        hi0.2.2.2.2, hner⟩
    · simp only [mem_edges_removeNode, hG3edges]
      exact ⟨⟨⟨⟨⟨List.mem_append_left _ (List.mem_append_right _
        (List.mem_cons_of_mem _ (List.mem_cons_self _ _))),
        hi1.1, hne1⟩, hi1.2.1, hne2⟩, hi1.2.2.1, hneN⟩, hi1.2.2.2.1, hnem⟩,
        hi1.2.2.2.2, hner⟩
    · intro e he hsrc hd1 hd2 hd3 hd4 hd5
      have heG1 : e ∈ G1.edges := List.mem_append_left _ he
      have heOut : e ∈ G1.outEdges sr := List.mem_filter.mpr ⟨heG1, by simp [hsrc]⟩
      simp only [mem_edges_removeNode, hG3edges]
      exact ⟨⟨⟨⟨⟨List.mem_append_right _ (List.mem_map.mpr ⟨e, heOut, rfl⟩),
        hne1, hd1⟩, hne2, hd2⟩, hneN, hd3⟩, hnem, hd4⟩, hner, hd5⟩
    · intro nd hnd
      simp only [mem_nodes_removeNode] at hnd
      exact ⟨hnd.1.1.2, hnd.1.1.1.1.2, hnd.1.1.1.2, hnd.1.2, hnd.2⟩
  · intro m k n w7 w8
    refine ⟨⟨[⟨0, Op.Other "InputA", [m, k]⟩, ⟨1, Op.Other "InputB", [k, n]⟩,
        ⟨7, Op.Other "Out1", [m, n]⟩, ⟨8, Op.Other "Out2", [m, n]⟩,
        ⟨9, Op.MatMul2D, [m, n]⟩],
      [⟨0, 9, 0⟩, ⟨1, 9, 1⟩, ⟨9, 7, w7⟩, ⟨9, 8, w8⟩],
      [], [], [(6, 9)], 10⟩, rfl, ?_, ?_, ?_, ?_, ?_, ?_⟩
    · simp [Op.opName]
    · intro nd hnd
      simp only [List.mem_cons, List.not_mem_nil, or_false] at hnd
      rcases hnd with h | h | h | h | h <;> subst h <;> simp
    · simp
    · simp
    · simp
    · simp

/-- Witness: the universal conjunct of the C3 theorem instantiated on the
concrete pattern graph `gC3 1 2 3 4 5` at its Permute node `2`, with every
hypothesis discharged by computation. -/
theorem claim_C3_witness :
    ∃ g', Graph.matmulStep (gC3 1 2 3 4 5) 2 = some g' ∧
      g'.idsOf = [0, 1, 7, 8, 9] ∧
      (⟨9, Op.MatMul2D, [1, 3]⟩ : GNode) ∈ g'.nodes ∧
      (⟨0, 9, 0⟩ : GEdge) ∈ g'.edges ∧
      (⟨1, 9, 1⟩ : GEdge) ∈ g'.edges ∧
      (∀ e ∈ (gC3 1 2 3 4 5).edges, e.src = 6 →
        e.dst ≠ 3 → e.dst ≠ 4 → e.dst ≠ 2 → e.dst ≠ 5 → e.dst ≠ 6 →
        (⟨9, e.dst, e.w⟩ : GEdge) ∈ g'.edges) ∧
      ∀ nd ∈ g'.nodes, nd.id ≠ 2 ∧ nd.id ≠ 3 ∧ nd.id ≠ 4 ∧ nd.id ≠ 5 ∧ nd.id ≠ 6 :=
  claim_C3.1 (gC3 1 2 3 4 5) 2 3 4 5 6 0 1
    Op.Permute Op.Expand Op.Mul Op.Expand Op.SumReduce (Op.Other "InputA")
    (Op.Other "InputB") [3, 2] [1, 3, 2] [1, 3, 2] [1, 3, 2] [1, 3] [1, 2] [2, 3]
    (by decide) (by decide) (by decide) (by decide) (by decide) (by decide) (by decide)
    (by decide) (by decide) (by decide) (by decide) (by decide) (by decide) (by decide)
    (by decide) (by decide) (by decide) (by decide) (by decide) (by decide) (by decide)
    (by decide) (by decide) (by decide) (by decide)

/-- Invariant preservation through the splice performed by a successful
matmul match: the new node is fresh, the four checked nodes are
unprotected, and the reduce node's `no_delete` membership migrates to the
new node. -/
theorem matmul_rewrite_inv (g g2 : Graph) (hI : Graph.Inv g)
    (e1 e2 node mul sr : Nat)
    (hids : g2.idsOf = g.idsOf ++ [g.nextId])
    (hnd2 : g2.noDelete = g.noDelete)
    (hnext : g2.nextId = g.nextId + 1)
    (hl1 : Graph.liveId g e1) (hl2 : Graph.liveId g e2) (hl3 : Graph.liveId g node)
    (hl4 : Graph.liveId g mul) (hl5 : Graph.liveId g sr)
    (hp1 : node ∉ g.noDelete) (hp2 : e1 ∉ g.noDelete) (hp3 : e2 ∉ g.noDelete)
    (hp4 : mul ∉ g.noDelete) :
    Graph.Inv ((((((g2.moveReferences sr g.nextId).removeNode e1).removeNode e2).removeNode
      node).removeNode mul).removeNode sr) := by
  obtain ⟨hIa, hIb, hIc⟩ := hI
  have hFids : ((((((g2.moveReferences sr g.nextId).removeNode e1).removeNode e2).removeNode
      node).removeNode mul).removeNode sr).idsOf =
      (((((g.idsOf ++ [g.nextId]).filter (fun m => m ≠ e1)).filter (fun m => m ≠ e2)).filter
        (fun m => m ≠ node)).filter (fun m => m ≠ mul)).filter (fun m => m ≠ sr) := by
    simp only [idsOf_removeNode]
    rw [show (g2.moveReferences sr g.nextId).idsOf = g2.idsOf from rfl, hids]
  have hFnd : ((((((g2.moveReferences sr g.nextId).removeNode e1).removeNode e2).removeNode
      node).removeNode mul).removeNode sr).noDelete =
      g.noDelete.map fun m => if m = sr then g.nextId else m := by
    show (g2.moveReferences sr g.nextId).noDelete = _
    unfold Graph.moveReferences
    rw [hnd2]
  have hFnext : ((((((g2.moveReferences sr g.nextId).removeNode e1).removeNode e2).removeNode
      node).removeNode mul).removeNode sr).nextId = g.nextId + 1 := hnext
  have hmem : ∀ m, m ∈ ((((((g2.moveReferences sr g.nextId).removeNode e1).removeNode
      e2).removeNode node).removeNode mul).removeNode sr).idsOf ↔
      (m ∈ g.idsOf ∨ m = g.nextId) ∧ m ≠ e1 ∧ m ≠ e2 ∧ m ≠ node ∧ m ≠ mul ∧ m ≠ sr := by
    intro m
    rw [hFids]
    simp only [List.mem_filter, List.mem_append, List.mem_singleton, decide_eq_true_eq]
    tauto
  refine ⟨?_, ?_, ?_⟩
  · intro n hn
    rw [hFnd] at hn
    obtain ⟨m, hm, heq⟩ := List.mem_map.mp hn
    unfold Graph.liveId
    rw [hmem]
    by_cases hms : m = sr
    · rw [if_pos hms] at heq
      subst heq
      have h1 := hIb e1 hl1
      have h2 := hIb e2 hl2
      have h3 := hIb node hl3
      have h4 := hIb mul hl4
      have h5 := hIb sr hl5
      exact ⟨Or.inr rfl, by omega, by omega, by omega, by omega, by omega⟩
    · rw [if_neg hms] at heq
      subst heq
      refine ⟨Or.inl (hIa m hm), ?_, ?_, ?_, ?_, hms⟩
      · intro hc; subst hc; exact hp2 hm
      · intro hc; subst hc; exact hp3 hm
      · intro hc; subst hc; exact hp1 hm
      · intro hc; subst hc; exact hp4 hm
  · intro n hn
    rw [hmem] at hn
    rw [hFnext]
    rcases hn.1 with h | h
    · have := hIb n h; omega
    · omega
  · rw [hFids]
    refine List.Nodup.filter _ (List.Nodup.filter _ (List.Nodup.filter _ (List.Nodup.filter _
      (List.Nodup.filter _ ?_))))
    rw [List.nodup_append]
    refine ⟨hIc, List.nodup_singleton _, ?_⟩
    intro a ha hb
    rw [List.mem_singleton] at hb
    subst hb
    exact absurd (hIb _ ha) (by omega)

/-- Invariant preservation through a successful unary-fusion splice: the
source node is unprotected and retained; the successor is removed with its
`no_delete` membership migrated to the source. -/
theorem unary_rewrite_inv (g g2 : Graph) (hI : Graph.Inv g) (id target : Nat)
    (hids : g2.idsOf = g.idsOf)
    (hnd2 : g2.noDelete = g.noDelete)
    (hnext : g2.nextId = g.nextId)
    (hlid : Graph.liveId g id)
    (hpid : id ∉ g.noDelete) :
    Graph.Inv ((g2.moveReferences target id).removeNode target) := by
  obtain ⟨hIa, hIb, hIc⟩ := hI
  have hFids : ((g2.moveReferences target id).removeNode target).idsOf =
      g.idsOf.filter fun m => m ≠ target := by
    rw [idsOf_removeNode]
    rw [show (g2.moveReferences target id).idsOf = g2.idsOf from rfl, hids]
  have hFnd : ((g2.moveReferences target id).removeNode target).noDelete =
      g.noDelete.map fun m => if m = target then id else m := by
    show (g2.moveReferences target id).noDelete = _
    unfold Graph.moveReferences
    rw [hnd2]
  refine ⟨?_, ?_, ?_⟩
  · intro n hn
    rw [hFnd] at hn
    obtain ⟨m, hm, heq⟩ := List.mem_map.mp hn
    unfold Graph.liveId
    rw [hFids]
    rw [List.mem_filter]
    by_cases hmt : m = target
    · rw [if_pos hmt] at heq
      subst heq
      refine ⟨hlid, ?_⟩
      simp only [decide_eq_true_eq]
      intro hc
      subst hc
      rw [hmt] at hm
      exact hpid hm
    · rw [if_neg hmt] at heq
      subst heq
      exact ⟨hIa m hm, by simpa using hmt⟩
  · intro n hn
    rw [hFids] at hn
    have := hIb n (List.mem_of_mem_filter hn)
    rw [show ((g2.moveReferences target id).removeNode target).nextId = g.nextId from hnext]
    exact this
  · rw [hFids]
    exact List.Nodup.filter _ hIc

/-- Each scan step of `MatMulOptimizer` preserves the invariant. -/
theorem matmulStep_inv (g g' : Graph) (x : Nat) (hI : Graph.Inv g)
    (h : Graph.matmulStep g x = some g') : Graph.Inv g' := by
  unfold Graph.matmulStep at h
  split at h
  · cases h; exact hI
  · rename_i permuteOp permuteShape heq0
    split at h
    · cases h; exact hI
    split at h
    case _ e1 op1 sh1 heq1 =>
      split at h
      · cases h; exact hI
      split at h
      case _ mul opm shm heq2 =>
        split at h
        · cases h; exact hI
        split at h
        case _ e2 op2 sh2 heq3 =>
          split at h
          · cases h; exact hI
          split at h
          case _ sr opr shr heq4 =>
            split at h
            · cases h; exact hI
            split at h
            · cases h; exact hI
            case _ hprot =>
              split at h
              case _ i0 o0 sh0 i1 o1 sh1' heqs0 heqs1 =>
                cases h
                push_neg at hprot
                have hl3 : Graph.liveId g x := lookupNode_live g x _ heq0
                have hl1 : Graph.liveId g e1 :=
                  mem_getDests_live g x (e1, op1, sh1) (by rw [heq1]; exact List.mem_singleton_self _)
                have hl4 : Graph.liveId g mul :=
                  mem_getDests_live g e1 (mul, opm, shm) (by rw [heq2]; exact List.mem_singleton_self _)
                have hl2 : Graph.liveId g e2 := by
                  have hmem : (e2, op2, sh2) ∈ (g.getSources mul).filter
                      (fun s => s.1 ≠ e1) := by
                    rw [heq3]; exact List.mem_singleton_self _
                  exact mem_getSources_live g mul (e2, op2, sh2) (List.mem_of_mem_filter hmem)
                have hl5 : Graph.liveId g sr :=
                  mem_getDests_live g mul (sr, opr, shr) (by rw [heq4]; exact List.mem_singleton_self _)
                apply matmul_rewrite_inv g _ hI e1 e2 x mul sr
                · show (((g.addOp2 Op.MatMul2D _ i0 i1).1.outEdges sr).foldl _
                    (g.addOp2 Op.MatMul2D _ i0 i1).1).idsOf = _
                  rw [show ∀ (l : List GEdge) (h0 : Graph),
                      (l.foldl (fun h e => h.addEdge g.nextId e.dst e.w) h0).idsOf = h0.idsOf
                    from fun l h0 => congrArg (List.map _) (addEdge_fold_fields l _ h0).1]
                  exact idsOf_addOp2 g Op.MatMul2D _ i0 i1
                · exact (addEdge_fold_fields _ _ _).2.1
                · exact (addEdge_fold_fields _ _ _).2.2
                · exact hl1
                · exact hl2
                · exact hl3
                · exact hl4
                · exact hl5
                · exact hprot.1
                · exact hprot.2.1
                · exact hprot.2.2.1
                · exact hprot.2.2.2
              all_goals exact Option.noConfusion h
          case _ => cases h; exact hI
        case _ => cases h; exact hI
      case _ => cases h; exact hI
    case _ => cases h; exact hI

/-- Each scan step of `UnaryFusionOptimizer` preserves the invariant. -/
theorem unaryStep_inv (g g' : Graph) (x : Nat) (hI : Graph.Inv g)
    (h : Graph.unaryStep g x = some g') : Graph.Inv g' := by
  unfold Graph.unaryStep at h
  split at h
  · cases h; exact hI
  case _ hpid =>
    split at h
    case _ target heqout =>
      split at h
      case _ op osh oop oosh heql heqt =>
        split at h
        · cases h; exact hI
        case _ fs hfs =>
          cases h
          apply unary_rewrite_inv g _ hI x target
          · show ((((g.setOp x (Op.FusedUnary fs)).outEdges target)).foldl _
              (g.setOp x (Op.FusedUnary fs))).idsOf = _
            rw [show ∀ (l : List GEdge) (h0 : Graph),
                (l.foldl (fun h e => h.addEdge x e.dst e.w) h0).idsOf = h0.idsOf
              from fun l h0 => congrArg (List.map _) (addEdge_fold_fields l _ h0).1]
            exact idsOf_setOp g x (Op.FusedUnary fs)
          · exact (addEdge_fold_fields _ _ _).2.1
          · exact (addEdge_fold_fields _ _ _).2.2
          · exact lookupNode_live g x _ heql
          · exact hpid
      all_goals exact Option.noConfusion h
    case _ => cases h; exact hI

/-- The snapshot fold preserves any property each step preserves. -/
theorem optFold_inv (step : Graph → Nat → Option Graph)
    (hstep : ∀ g g' x, Graph.Inv g → step g x = some g' → Graph.Inv g') :
    ∀ (l : List Nat) (g g' : Graph), Graph.Inv g →
      Graph.optFold step g l = some g' → Graph.Inv g' := by
  intro l
  induction l with
  | nil =>
    intro g g' hI h
    cases h
    exact hI
  | cons x xs ih =>
    intro g g' hI h
    unfold Graph.optFold at h
    cases hs : step g x with
    | none => rw [hs] at h; exact Option.noConfusion h
    | some g1 =>
      rw [hs] at h
      exact ih g1 g' (hstep g g1 x hI hs) h

/-- C2 (amended): for every well-formed graph (`no_delete ⊆ live nodes`,
fresh-id bound, unique node ids), both optimizer passes keep every member
of the `no_delete` set a live node of the graph.  A protected node can be
removed only together with an atomic migration of its membership to its
replacement — the SumReduce node of a matched matmul pattern (only the
Permute/Expand/Expand/Mul guards block the rewrite) and the successor of a
unary fusion (only a protected *source* blocks the merge). -/
theorem claim_C2 (g g1 g2 : Graph) (hI : Graph.Inv g)
    (h1 : Graph.matmulOptimize g = some g1) (h2 : Graph.unaryOptimize g = some g2) :
    (∀ n ∈ g1.noDelete, Graph.liveId g1 n) ∧ ∀ n ∈ g2.noDelete, Graph.liveId g2 n :=
  ⟨(optFold_inv Graph.matmulStep matmulStep_inv _ g g1 hI h1).1,
   (optFold_inv Graph.unaryStep unaryStep_inv _ g g2 hI h2).1⟩

/-- C2 witness: a concrete two-node graph with a protected sink, run
through both passes. -/
theorem claim_C2_witness :
    Graph.Inv gCW ∧ Graph.matmulOptimize gCW = some gCW ∧
      Graph.unaryOptimize gCW = some gCW ∧
      ((∀ n ∈ gCW.noDelete, Graph.liveId gCW n) ∧
        ∀ n ∈ gCW.noDelete, Graph.liveId gCW n) :=
  ⟨by decide, by decide, by decide, claim_C2 gCW gCW gCW (by decide) (by decide) (by decide)⟩

/-- C1 counterexample: the claim reads "for every logical index
`0 ≤ idx < n_elements()`, `Indexer::index(idx)` returns `Some`".  On
`new([Known(3)])` padded by `(2, 2)`, `n_elements() = 7` but logical index
0 lies in the front padding: `Indexer::index(0)` is `None` (and
`valid_expression` evaluates to 0 there). -/
theorem claim_C1_counterexample :
    ((ShapeTracker.new [Dim.Known 3]).pad [(2, 2)]).map
        (fun t => (t.n_elements, t.indexer.index 0, t.valid_expression.eval (idxEnv 0))) =
      some (7, none, 0) := by
  decide

theorem filterMap_eq_map_of_some {α β : Type} (f : α → Option β) (g : α → β) (l : List α)
    (h : ∀ x ∈ l, f x = some (g x)) : l.filterMap f = l.map g := by
  induction l with
  | nil => rfl
  | cons hd tl ih =>
    rw [List.filterMap_cons, h hd (List.mem_cons_self _ _), List.map_cons,
      ih fun x hx => h x (List.mem_cons_of_mem _ hx)]

/-- Every storage slot reachable through `indexes` holds a `Known` dim. -/
theorem allKnown_getD (t : ShapeTracker) (hwf : t.WF) (hk : t.allKnown)
    (i : Nat) (hi : i ∈ t.indexes) :
    ∃ n, t.dims.getD i Dim.default = Dim.Known n := by
  have hlt : i < t.dims.length := hwf.2.2.2.2.2 i hi
  have hmem : t.dims.getD i Dim.default ∈ t.dims := by
    rw [getD_eq_getElem _ _ _ hlt]
    exact List.getElem_mem hlt
  have := hk _ hmem
  cases hd : t.dims.getD i Dim.default with
  | Known n => exact ⟨n, rfl⟩
  | Unknown c =>
    rw [hd] at this
    exact absurd this (by simp [Dim.to_usize])

/-- For an all-known well-formed tracker, `n_elements` is the product of
the effective padded-and-sliced sizes of the indexer's axes. -/
theorem nElements_eq_prod (t : ShapeTracker) (hwf : t.WF) (hk : t.allKnown) :
    t.n_elements = (t.indexer.data.map Axis.logicalSh).prod := by
  unfold ShapeTracker.n_elements ShapeTracker.indexer
  dsimp only
  rw [List.map_reverse, List.map_reverse, List.prod_reverse, List.map_map]
  rw [filterMap_eq_map_of_some _
    (fun i => (i, (t.dims.getD i Dim.default).val)) t.indexes ?hsome]
  case hsome =>
    intro i hi
    obtain ⟨n, hn⟩ := allKnown_getD t hwf hk i hi
    dsimp only
    rw [hn]
    rfl
  rw [List.map_map, List.map_map]
  rfl

/-- The indexer loop is periodic in the logical index with period
`acc * (product of the effective sizes)`, whenever all effective sizes are
positive. -/
theorem indexLoop_periodic (data : List Axis) :
    ∀ (logical ret acc : Nat), 0 < acc → (∀ a ∈ data, 0 < a.logicalSh) →
      indexLoop data (logical + acc * (data.map Axis.logicalSh).prod) ret acc =
        indexLoop data logical ret acc := by
  induction data with
  | nil => intros; rfl
  | cons a rest ih =>
    intro logical ret acc hacc hpos
    have hlsh : 0 < a.logicalSh := hpos a (List.mem_cons_self _ _)
    have hL : logical + acc * ((a :: rest).map Axis.logicalSh).prod =
        logical + acc * a.logicalSh * (rest.map Axis.logicalSh).prod := by
      rw [List.map_cons, List.prod_cons, Nat.mul_assoc]
    simp only [indexLoop]
    rw [hL]
    have hdig : (logical + acc * a.logicalSh * (rest.map Axis.logicalSh).prod) / acc %
        a.logicalSh = logical / acc % a.logicalSh := by
      rw [Nat.mul_assoc, Nat.add_mul_div_left _ _ hacc, Nat.add_mul_mod_self_left]
    rw [hdig]
    have hrest : ∀ x ∈ rest, 0 < x.logicalSh := fun x hx => hpos x (List.mem_cons_of_mem _ hx)
    have hacc' : 0 < acc * a.logicalSh := Nat.mul_pos hacc hlsh
    split
    · exact ih logical ret (acc * a.logicalSh) hacc' hrest
    · split
      · rfl
      · exact ih logical _ (acc * a.logicalSh) hacc' hrest

/-- C10: for an all-known, well-formed tracker whose axes all have a
positive effective padded-and-sliced size, the compiled indexer is
periodic with period `n_elements()`: the outermost logical digit wraps
modulo its effective size, so `Indexer::index` never rejects a logical
index merely for being `≥ n_elements()`. -/
theorem claim_C10 (t : ShapeTracker) (hwf : t.WF) (hk : t.allKnown)
    (hpos : ∀ a ∈ t.indexer.data, 0 < a.logicalSh) (i : Nat) :
    t.indexer.index (i + t.n_elements) = t.indexer.index i := by
  unfold Indexer.index
  rw [nElements_eq_prod t hwf hk]
  have h := indexLoop_periodic t.indexer.data i 0 1 Nat.one_pos hpos
  rwa [Nat.one_mul] at h

/-- C10 witness: the permuted rank-2 tracker of sizes 2 and 3. -/
theorem claim_C10_witness :
    ((ShapeTracker.new [Dim.Known 2, Dim.Known 3]).permute [1, 0]).WF ∧
    ((ShapeTracker.new [Dim.Known 2, Dim.Known 3]).permute [1, 0]).indexer.index
        (1 + ((ShapeTracker.new [Dim.Known 2, Dim.Known 3]).permute [1, 0]).n_elements) =
      ((ShapeTracker.new [Dim.Known 2, Dim.Known 3]).permute [1, 0]).indexer.index 1 :=
  ⟨by decide,
   claim_C10 ((ShapeTracker.new [Dim.Known 2, Dim.Known 3]).permute [1, 0])
     (by decide) (by decide) (by decide) 1⟩

theorem dim_expr_eval (env : String → Int) (d : Dim) (h : d.to_usize.isSome = true) :
    Expr.eval env d.expr = (d.val : Int) := by
  cases d with
  | Known n => rfl
  | Unknown c => exact absurd h (by simp [Dim.to_usize])

theorem evalE_getD (env : String → Int) (es : List Expr) (i : Nat) :
    Expr.eval env (es.getD i (Expr.int 0)) = (es.map (Expr.eval env)).getD i 0 := by
  by_cases h : i < es.length
  · rw [getD_eq_getElem _ _ _ h, getD_eq_getElem _ _ _ (by simpa using h), List.getElem_map]
  · rw [List.getD_eq_default _ _ (by omega), List.getD_eq_default _ _ (by simpa using h)]
    rfl

theorem getD_map_cast (l : List Nat) (i : Nat) :
    (l.map fun n : Nat => (n : Int)).getD i 0 = ((l.getD i 0 : Nat) : Int) := by
  by_cases h : i < l.length
  · rw [getD_eq_getElem _ _ _ (by simpa using h), getD_eq_getElem _ _ _ h, List.getElem_map]
  · rw [List.getD_eq_default _ _ (by simpa using h), List.getD_eq_default _ _ (by omega)]
    rfl

/-- The expression-level stride scan evaluates to the numeric stride scan
once all dims are known. -/
theorem stridesAux_eval (env : String → Int) :
    ∀ l : List (Dim × Bool), (∀ p ∈ l, (p.1.to_usize).isSome = true) →
      ((ShapeTracker.stridesAux Expr.mul (Expr.int 1) Dim.expr l).1.map (Expr.eval env) =
        (ShapeTracker.stridesAux (· * ·) 1 Dim.val l).1.map fun n : Nat => (n : Int)) ∧
      Expr.eval env (ShapeTracker.stridesAux Expr.mul (Expr.int 1) Dim.expr l).2 =
        ((ShapeTracker.stridesAux (· * ·) 1 Dim.val l).2 : Int) := by
  intro l
  induction l with
  | nil => intro _; exact ⟨rfl, rfl⟩
  | cons hd tl ih =>
    intro hk
    obtain ⟨ih1, ih2⟩ := ih fun p hp => hk p (List.mem_cons_of_mem _ hp)
    obtain ⟨d, f⟩ := hd
    have hd' : Expr.eval env d.expr = (d.val : Int) :=
      dim_expr_eval env d (hk (d, f) (List.mem_cons_self _ _))
    simp only [ShapeTracker.stridesAux]
    rcases hE : ShapeTracker.stridesAux Expr.mul (Expr.int 1) Dim.expr tl with ⟨sE, accE⟩
    rcases hN : ShapeTracker.stridesAux (· * ·) 1 Dim.val tl with ⟨sN, accN⟩
    rw [hE, hN] at ih1 ih2
    dsimp only at ih1 ih2 ⊢
    refine ⟨by rw [List.map_cons, List.map_cons, ih1, ih2], ?_⟩
    cases f
    · simp only [if_neg Bool.false_ne_true, Expr.eval, ih2, hd']
      push_cast
      ring
    · simpa using ih2

/-- Evaluating the `index_expression` loop gives the exact-integer
offset loop, once the per-axis expressions evaluate to the axis data. -/
theorem evalE_indexExprLoop (env : String → Int)
    (fE : Nat → Expr × Expr × (Nat × Nat) × (Nat × Nat) × Bool) (fA : Nat → Axis) :
    ∀ is : List Nat,
      (∀ i ∈ is, Expr.eval env (fE i).1 = ((fA i).sh : Int) ∧
        Expr.eval env (fE i).2.1 = ((fA i).stride : Int) ∧
        (fE i).2.2.1 = (fA i).pad ∧ (fE i).2.2.2.1 = (fA i).sl ∧
        (fE i).2.2.2.2 = (fA i).fake) →
      ∀ retE accE : Expr,
        Expr.eval env (ShapeTracker.indexExprLoop (is.map fE) retE accE) =
          zIndexLoop (is.map fA) (env "idx") (Expr.eval env retE) (Expr.eval env accE) := by
  intro is
  induction is with
  | nil => intro _ retE accE; rfl
  | cons i rest ih =>
    intro hc retE accE
    obtain ⟨h1, h2, h3, h4, h5⟩ := hc i (List.mem_cons_self _ _)
    rw [List.map_cons, List.map_cons]
    rcases hfe : fE i with ⟨shE, strideE, pdE, slE, fkE⟩
    rw [hfe] at h1 h2 h3 h4 h5
    dsimp only at h1 h2 h3 h4 h5
    simp only [ShapeTracker.indexExprLoop, zIndexLoop]
    rw [ih (fun j hj => hc j (List.mem_cons_of_mem _ hj))]
    have hlsh : Expr.eval env (Expr.sub (Expr.emin (Expr.add (Expr.add shE (Expr.int pdE.1))
        (Expr.int pdE.2)) (Expr.int slE.2)) (Expr.int slE.1)) =
        min (((fA i).sh : Int) + ((fA i).pad.1 : Int) + ((fA i).pad.2 : Int))
          ((fA i).sl.2 : Int) - ((fA i).sl.1 : Int) := by
      simp only [Expr.eval, h1, h3, h4]
    rw [h3, h4, h5]
    cases hfk : (fA i).fake
    · simp only [Bool.false_eq_true, if_false]
      congr 1
      · simp only [Expr.eval, h1, h2, h3, h4, hlsh]
      · simp only [Expr.eval, h1]
    · simp only [if_true]
      congr 1
      simp only [Expr.eval, h1]

theorem evalE_eand_ne (env : String → Int) (a b : Expr) :
    Expr.eval env (Expr.eand a b) ≠ 0 ↔
      (Expr.eval env a ≠ 0 ∧ Expr.eval env b ≠ 0) := by
  by_cases h : Expr.eval env a ≠ 0 ∧ Expr.eval env b ≠ 0 <;> simp [Expr.eval, h]

theorem evalE_ege_ne (env : String → Int) (a b : Expr) :
    Expr.eval env (Expr.ege a b) ≠ 0 ↔ Expr.eval env b ≤ Expr.eval env a := by
  by_cases h : Expr.eval env b ≤ Expr.eval env a <;> simp [Expr.eval, ge_iff_le, h]

theorem evalE_elt_ne (env : String → Int) (a b : Expr) :
    Expr.eval env (Expr.elt a b) ≠ 0 ↔ Expr.eval env a < Expr.eval env b := by
  by_cases h : Expr.eval env a < Expr.eval env b <;> simp [Expr.eval, h]

/-- Evaluating the `valid_expression` loop: non-zero iff the carried
conjunction is non-zero and every per-axis range check holds. -/
theorem evalE_validExprLoop (env : String → Int)
    (fE : Nat → Expr × (Nat × Nat) × (Nat × Nat) × Bool) (fA : Nat → Axis) :
    ∀ is : List Nat,
      (∀ i ∈ is, Expr.eval env (fE i).1 = ((fA i).sh : Int) ∧
        (fE i).2.1 = (fA i).pad ∧ (fE i).2.2.1 = (fA i).sl ∧
        (fE i).2.2.2 = (fA i).fake) →
      ∀ retE accE : Expr,
        (Expr.eval env (ShapeTracker.validExprLoop (is.map fE) retE accE) ≠ 0 ↔
          (Expr.eval env retE ≠ 0 ∧
            zValidHolds (is.map fA) (env "idx") (Expr.eval env accE))) := by
  intro is
  induction is with
  | nil =>
    intro _ retE accE
    simp [ShapeTracker.validExprLoop, zValidHolds]
  | cons i rest ih =>
    intro hc retE accE
    obtain ⟨h1, h3, h4, h5⟩ := hc i (List.mem_cons_self _ _)
    rw [List.map_cons, List.map_cons]
    rcases hfe : fE i with ⟨shE, pdE, slE, fkE⟩
    rw [hfe] at h1 h3 h4 h5
    dsimp only at h1 h3 h4 h5
    subst h3
    subst h4
    subst h5
    simp only [ShapeTracker.validExprLoop, zValidHolds]
    rw [ih (fun j hj => hc j (List.mem_cons_of_mem _ hj))]
    have haccE : Expr.eval env (Expr.mul accE (Expr.sub (Expr.emin (Expr.add (Expr.add shE
        (Expr.int ((fA i).pad.1 : Int))) (Expr.int ((fA i).pad.2 : Int)))
        (Expr.int ((fA i).sl.2 : Int))) (Expr.int ((fA i).sl.1 : Int)))) =
        Expr.eval env accE * (min (((fA i).sh : Int) + ((fA i).pad.1 : Int) +
          ((fA i).pad.2 : Int)) ((fA i).sl.2 : Int) - ((fA i).sl.1 : Int)) := by
      simp only [Expr.eval, h1]
    cases hfk : (fA i).fake
    · simp only [Bool.false_eq_true, if_false]
      rw [haccE, evalE_eand_ne, evalE_eand_ne, evalE_ege_ne, evalE_elt_ne]
      simp only [Expr.eval, h1]
      constructor
      · rintro ⟨⟨⟨hr, hge⟩, hlt⟩, hrest⟩
        exact ⟨hr, fun _ => ⟨hge, hlt⟩, hrest⟩
      · rintro ⟨hr, hchk, hrest⟩
        obtain ⟨hge, hlt⟩ := hchk trivial
        exact ⟨⟨⟨hr, hge⟩, hlt⟩, hrest⟩
    · simp only [if_true]
      rw [haccE]
      constructor
      · rintro ⟨hr, hrest⟩
        exact ⟨hr, fun hco => absurd hco (by decide), hrest⟩
      · rintro ⟨hr, _, hrest⟩
        exact ⟨hr, hrest⟩

/-- The effective-size cast: positive `logicalSh` makes the exact-integer
form equal the truncated `usize` form. -/
theorem logicalSh_cast (a : Axis) (h : 0 < a.logicalSh) :
    min ((a.sh : Int) + (a.pad.1 : Int) + (a.pad.2 : Int)) (a.sl.2 : Int) - (a.sl.1 : Int) =
      (a.logicalSh : Int) := by
  unfold Axis.logicalSh at *
  have h1 : a.sl.1 ≤ min (a.sh + a.pad.1 + a.pad.2) a.sl.2 := by omega
  push_cast [h1]
  ring

/-- The per-axis digit cast. -/
theorem dig_cast (logical accN lshN : Nat) :
    (((logical : Int).ediv (accN : Int)).emod (lshN : Int)) =
      ((logical / accN % lshN : Nat) : Int) := by
  rw [← Int.natCast_ediv]
  exact (Int.ofNat_emod _ _).symm

/-- The `usize` indexer loop against the exact-integer expression loops:
on a `Some` result the validity checks hold and the exact offset equals
the returned physical index; on `None` the checks fail.  Requires every
effective size positive and no axis combining front padding with a
positive slice start (there the source's unsigned subtraction would
underflow). -/
theorem indexLoop_agree :
    ∀ (axes : List Axis) (logical retN accN : Nat),
      0 < accN → (∀ a ∈ axes, 0 < a.logicalSh) →
      (∀ a ∈ axes, a.pad.1 = 0 ∨ a.sl.1 = 0) →
      (∀ v, indexLoop axes logical retN accN = some v →
        (zValidHolds axes (logical : Int) (accN : Int) ∧
          zIndexLoop axes (logical : Int) (retN : Int) (accN : Int) = (v : Int))) ∧
      (indexLoop axes logical retN accN = none →
        ¬ zValidHolds axes (logical : Int) (accN : Int)) := by
  intro axes
  induction axes with
  | nil =>
    intro logical retN accN _ _ _
    constructor
    · intro v hv
      cases hv
      exact ⟨trivial, rfl⟩
    · intro hv
      exact Option.noConfusion hv
  | cons a rest ih =>
    intro logical retN accN haccN hpos hax
    have hlshN : 0 < a.logicalSh := hpos a (List.mem_cons_self _ _)
    have hlshZ := logicalSh_cast a hlshN
    have hposR : ∀ x ∈ rest, 0 < x.logicalSh := fun x hx => hpos x (List.mem_cons_of_mem _ hx)
    have haxR : ∀ x ∈ rest, x.pad.1 = 0 ∨ x.sl.1 = 0 := fun x hx => hax x (List.mem_cons_of_mem _ hx)
    have haccN' : 0 < accN * a.logicalSh := Nat.mul_pos haccN hlshN
    have haccZ : (accN : Int) * (a.logicalSh : Int) = ((accN * a.logicalSh : Nat) : Int) := by
      push_cast
      ring
    simp only [indexLoop, zIndexLoop, zValidHolds]
    rw [hlshZ, dig_cast, haccZ]
    set digN := logical / accN % a.logicalSh with hdigN
    have hmin : ((min (a.sh + a.pad.1) a.sl.2 : Nat) : Int) =
        min ((a.sh : Int) + (a.pad.1 : Int)) (a.sl.2 : Int) := by
      push_cast
      rfl
    have hchk : (¬(digN ≥ min (a.sh + a.pad.1) a.sl.2 ∨ digN < a.pad.1 - a.sl.1)) ↔
        (((a.pad.1 - a.sl.1 : Nat) : Int) ≤ (digN : Int) ∧
          (digN : Int) < min ((a.sh : Int) + (a.pad.1 : Int)) (a.sl.2 : Int)) := by
      rw [← hmin]
      constructor
      · intro h
        push_neg at h
        exact ⟨by exact_mod_cast h.2, by exact_mod_cast h.1⟩
      · intro ⟨h1, h2⟩
        push_neg
        exact ⟨by exact_mod_cast h2, by exact_mod_cast h1⟩
    cases hfk : a.fake
    · simp only [Bool.false_eq_true, if_false]
      split
      case isTrue hrej =>
        constructor
        · intro v hv
          exact absurd hv (by simp)
        · intro _
          intro hholds
          obtain ⟨hc, _⟩ := hholds
          exact (hchk.mpr (hc trivial)) hrej
      case isFalse hrej =>
        have hpass := hchk.mp hrej
        have hretZ : (retN : Int) + (((digN : Int) - (a.pad.1 : Int) +
            ((a.sl.1 - a.pad.1 : Nat) : Int)) * (a.stride : Int)) =
            ((retN + (digN - a.pad.1 + (a.sl.1 - a.pad.1)) * a.stride : Nat) : Int) := by
          rcases hax a (List.mem_cons_self _ _) with hp | hs
          · rw [hp]
            simp only [Nat.sub_zero]
            push_cast
            ring
          · have hge : a.pad.1 ≤ digN := by
              push_neg at hrej
              have := hrej.2
              omega
            rw [hs, Nat.zero_sub]
            push_cast [hge]
            ring
        obtain ⟨ihS, ihN⟩ := ih logical (retN + (digN - a.pad.1 + (a.sl.1 - a.pad.1)) * a.stride)
          (accN * a.logicalSh) haccN' hposR haxR
        constructor
        · intro v hv
          obtain ⟨hholds, hz⟩ := ihS v hv
          refine ⟨⟨fun _ => hpass, hholds⟩, ?_⟩
          rw [hretZ]
          exact hz
        · intro hv hholds
          exact ihN hv hholds.2
    · simp only [if_true]
      obtain ⟨ihS, ihN⟩ := ih logical retN (accN * a.logicalSh) haccN' hposR haxR
      constructor
      · intro v hv
        obtain ⟨hholds, hz⟩ := ihS v hv
        exact ⟨⟨fun hco => absurd hco (by decide), hholds⟩, hz⟩
      · intro hv hholds
        exact ihN hv hholds.2

/-- The validity checks always hold on unpadded, unsliced axes of
positive size. -/
theorem zValidHolds_default :
    ∀ (axes : List Axis) (lg acc : Int),
      (∀ a ∈ axes, a.pad = (0, 0) ∧ a.sl = (0, i32Max)) →
      (∀ a ∈ axes, 0 < a.logicalSh) →
      zValidHolds axes lg acc := by
  intro axes
  induction axes with
  | nil => intro lg acc _ _; trivial
  | cons a rest ih =>
    intro lg acc hdef hpos
    obtain ⟨hpad, hsl⟩ := hdef a (List.mem_cons_self _ _)
    have hlshN : 0 < a.logicalSh := hpos a (List.mem_cons_self _ _)
    have hlshZ := logicalSh_cast a hlshN
    refine ⟨?_, ih lg _ (fun x hx => hdef x (List.mem_cons_of_mem _ hx))
      (fun x hx => hpos x (List.mem_cons_of_mem _ hx))⟩
    intro _
    have hp1 : a.pad.1 = 0 := by rw [hpad]
    have hp2 : a.pad.2 = 0 := by rw [hpad]
    have hs1 : a.sl.1 = 0 := by rw [hsl]
    set M : Int := min ((a.sh : Int) + (a.pad.1 : Int) + (a.pad.2 : Int)) (a.sl.2 : Int) -
      (a.sl.1 : Int) with hMdef
    have hMpos : (0 : Int) < M := by
      rw [hlshZ]
      exact_mod_cast hlshN
    constructor
    · rw [hp1, hs1]
      simpa using Int.emod_nonneg (lg.ediv acc) (by omega : M ≠ 0)
    · have hlt := Int.emod_lt_of_pos (lg.ediv acc) hMpos
      have hMeq : M = min ((a.sh : Int) + (a.pad.1 : Int)) (a.sl.2 : Int) := by
        rw [hMdef, hp1, hp2, hs1]
        simp
      rw [← hMeq]
      exact hlt

/-- C1 (amended): for a well-formed, all-known tracker with no axis
combining front padding with a positive slice start (there the source's
unsigned subtraction underflows), and any `0 ≤ idx < n_elements()`:
`Indexer::index(idx)` is `Some` **iff** `valid_expression()` evaluates
non-zero at `idx`; whenever it is `Some`, the returned physical index
equals the evaluation of `index_expression()` at `idx`; and on a tracker
with no padding and no slicing it is always `Some`. -/
theorem claim_C1 (t : ShapeTracker) (idx : Nat) (hwf : t.WF) (hk : t.allKnown)
    (hax : ∀ i ∈ t.indexes, (t.padding.getD i (0, 0)).1 = 0 ∨ (t.slices.getD i (0, 0)).1 = 0)
    (hidx : idx < t.n_elements) :
    ((t.indexer.index idx).isSome ↔ t.valid_expression.eval (idxEnv idx) ≠ 0) ∧
    (∀ v, t.indexer.index idx = some v →
      t.index_expression.eval (idxEnv idx) = (v : Int)) ∧
    ((∀ i ∈ t.indexes, t.padding.getD i (0, 0) = (0, 0) ∧
        t.slices.getD i (0, 0) = (0, i32Max)) →
      (t.indexer.index idx).isSome) := by
  have henv : idxEnv idx "idx" = (idx : Int) := by simp [idxEnv]
  have hkz : ∀ p ∈ t.dims.zip t.fake, (p.1.to_usize).isSome = true := by
    intro p hp
    exact hk p.1 (List.of_mem_zip hp).1
  have hstrides : t.strideExprs.map (Expr.eval (idxEnv idx)) =
      t.unordered_strides.map fun n : Nat => (n : Int) :=
    (stridesAux_eval (idxEnv idx) (t.dims.zip t.fake) hkz).1
  have hsh : ∀ i ∈ t.indexes.reverse,
      Expr.eval (idxEnv idx) (t.dims.getD i Dim.default).expr =
        (((t.dims.getD i Dim.default).val : Nat) : Int) := by
    intro i hi
    obtain ⟨n, hn⟩ := allKnown_getD t hwf hk i (List.mem_reverse.mp hi)
    rw [hn]
    rfl
  have hc1 : ∀ i ∈ t.indexes.reverse,
      Expr.eval (idxEnv idx) (t.exprAxis i).1 = ((t.axisAt i).sh : Int) ∧
      Expr.eval (idxEnv idx) (t.exprAxis i).2.1 = ((t.axisAt i).stride : Int) ∧
      (t.exprAxis i).2.2.1 = (t.axisAt i).pad ∧
      (t.exprAxis i).2.2.2.1 = (t.axisAt i).sl ∧
      (t.exprAxis i).2.2.2.2 = (t.axisAt i).fake := by
    intro i hi
    refine ⟨hsh i hi, ?_, rfl, rfl, rfl⟩
    show Expr.eval (idxEnv idx) (t.strideExprs.getD i (Expr.int 0)) =
      ((t.unordered_strides.getD i 0 : Nat) : Int)
    rw [evalE_getD, hstrides, getD_map_cast]
  have hc2 : ∀ i ∈ t.indexes.reverse,
      Expr.eval (idxEnv idx) (t.validAxis i).1 = ((t.axisAt i).sh : Int) ∧
      (t.validAxis i).2.1 = (t.axisAt i).pad ∧
      (t.validAxis i).2.2.1 = (t.axisAt i).sl ∧
      (t.validAxis i).2.2.2 = (t.axisAt i).fake := by
    intro i hi
    exact ⟨hsh i hi, rfl, rfl, rfl⟩
  have hA1 : Expr.eval (idxEnv idx) t.index_expression =
      zIndexLoop (t.indexes.reverse.map t.axisAt) ((idx : Nat) : Int) 0 1 := by
    unfold ShapeTracker.index_expression
    rw [evalE_indexExprLoop (idxEnv idx) t.exprAxis t.axisAt t.indexes.reverse hc1
      (Expr.int 0) (Expr.int 1), henv]
    rfl
  have hA2 : Expr.eval (idxEnv idx) t.valid_expression ≠ 0 ↔
      zValidHolds (t.indexes.reverse.map t.axisAt) ((idx : Nat) : Int) 1 := by
    unfold ShapeTracker.valid_expression
    rw [evalE_validExprLoop (idxEnv idx) t.validAxis t.axisAt t.indexes.reverse hc2
      (Expr.int 1) (Expr.int 1), henv]
    simp [Expr.eval]
  have hpos : ∀ a ∈ t.indexes.reverse.map t.axisAt, 0 < a.logicalSh := by
    intro a ha
    rcases Nat.eq_zero_or_pos a.logicalSh with h0 | h
    · exfalso
      have hz : t.n_elements = 0 := by
        rw [nElements_eq_prod t hwf hk]
        exact List.prod_eq_zero (List.mem_map.mpr ⟨a, ha, h0⟩)
      omega
    · exact h
  have haxA : ∀ a ∈ t.indexes.reverse.map t.axisAt, a.pad.1 = 0 ∨ a.sl.1 = 0 := by
    intro a ha
    obtain ⟨i, hi, rfl⟩ := List.mem_map.mp ha
    exact hax i (List.mem_reverse.mp hi)
  obtain ⟨hBs, hBn⟩ := indexLoop_agree (t.indexes.reverse.map t.axisAt) idx 0 1
    Nat.one_pos hpos haxA
  refine ⟨⟨?_, ?_⟩, ?_, ?_⟩
  · intro hsome
    obtain ⟨v, hv⟩ := Option.isSome_iff_exists.mp hsome
    exact hA2.mpr (hBs v hv).1
  · intro hval
    cases hcase : t.indexer.index idx with
    | some v => simp
    | none => exact absurd (hA2.mp hval) (hBn hcase)
  · intro v hv
    rw [hA1]
    exact (hBs v hv).2
  · intro hdef
    have hholds : zValidHolds (t.indexes.reverse.map t.axisAt) ((idx : Nat) : Int) 1 := by
      refine zValidHolds_default _ _ _ ?_ hpos
      intro a ha
      obtain ⟨i, hi, rfl⟩ := List.mem_map.mp ha
      exact hdef i (List.mem_reverse.mp hi)
    cases hcase : t.indexer.index idx with
    | some v => simp
    | none => exact absurd hholds (hBn hcase)

/-- C1 witness: the padded rank-1 tracker of size 3 with padding `(2, 2)`
at logical index 2 (the first in-bounds element). -/
theorem claim_C1_witness :
    (tC1W.WF ∧ tC1W.allKnown ∧ 2 < tC1W.n_elements) ∧
    ((tC1W.indexer.index 2).isSome ↔ tC1W.valid_expression.eval (idxEnv 2) ≠ 0) ∧
    ∀ v, tC1W.indexer.index 2 = some v →
      tC1W.index_expression.eval (idxEnv 2) = (v : Int) := by
  refine ⟨⟨by decide, by decide, by decide⟩, ?_, ?_⟩
  · exact (claim_C1 tC1W 2 (by decide) (by decide) (by decide) (by decide)).1
  · exact (claim_C1 tC1W 2 (by decide) (by decide) (by decide) (by decide)).2.1

end Luminal
